import Mathlib

/-!
Shallow embedding of the folder synchroniser (src/synchroniser.py).

Paths are modelled as lists of characters (absolute, normalised, as produced by
the program's own listing: the code joins an absolute directory path with a
child name using the separator character).  The filesystem is an association
list from absolute paths to entries (regular files carrying content bytes and
permission bits, or directories carrying permission bits), together with two
failure oracles injecting the I/O failures the code has to cope with:
paths whose stat-based metadata reads raise, and paths whose open-for-read
raises.  Python exceptions are modelled by the result type PyRes: a helper that
the source wraps in try/except returns an ordinary value, and an exception
escaping a function is the PyRes.exn constructor.  The recursive tree walk of
update_content / update_directory / create_directory / remove_content is a
single fuel-indexed interpreter runJob over a job type, so that every
definition is executable by kernel reduction; the wrappers below it carry the
source's function names.  A trace of attempted mutation operations is
collected so that frame properties about which tree gets written are statable.
-/

namespace PySync

abbrev Path := List Char

/-- A filesystem entry: a regular file (content bytes, permission bits) or a
directory (permission bits). -/
inductive Entry where
  | file (content : List Nat) (mode : Nat)
  | dir (mode : Nat)
deriving DecidableEq

/-- Filesystem state plus injected per-path I/O failures: statFail are paths
whose os.stat-based metadata reads raise, readFail are paths whose
open-for-read raises. -/
structure FileSys where
  entries : List (Path × Entry)
  statFail : List Path
  readFail : List Path
deriving DecidableEq

/-- Python result: a normal return value, or an exception escaping the call. -/
inductive PyRes (α : Type) where
  | ok (val : α)
  | exn
deriving DecidableEq

def PyRes.mapv {α β : Type} (f : α → β) : PyRes α → PyRes β
  | .ok a => .ok (f a)
  | .exn => .exn

/-- Attempted filesystem mutation operations, recorded for frame reasoning. -/
inductive WOp where
  | mkdirOp (p : Path)
  | chmodOp (p : Path)
  | copyOp (p : Path)
  | removeOp (p : Path)
  | rmtreeOp (p : Path)
deriving DecidableEq

def wopPath : WOp → Path
  | .mkdirOp p => p
  | .chmodOp p => p
  | .copyOp p => p
  | .removeOp p => p
  | .rmtreeOp p => p

def lookupFS (es : List (Path × Entry)) (p : Path) : Option Entry :=
  match es with
  | [] => none
  | (q, e) :: rest => if q = p then some e else lookupFS rest p

def setEntry (es : List (Path × Entry)) (p : Path) (e : Entry) : List (Path × Entry) :=
  if (lookupFS es p).isSome then
    es.map (fun q => if q.1 = p then (p, e) else q)
  else
    es ++ [(p, e)]

def removeEntry (es : List (Path × Entry)) (p : Path) : List (Path × Entry) :=
  es.filter (fun q => !(decide (q.1 = p)))

/-- p is a strict descendant of d (d plus the separator is a prefix of p). -/
def isUnder (d p : Path) : Bool := (d ++ ['/']).isPrefixOf p

def rmtreeEntries (es : List (Path × Entry)) (p : Path) : List (Path × Entry) :=
  es.filter (fun q => !(decide (q.1 = p)) && !(isUnder p q.1))

def parentPath (p : Path) : Path :=
  ((p.reverse.dropWhile (fun c => c ≠ '/')).tail).reverse

def baseName (p : Path) : Path :=
  (p.reverse.takeWhile (fun c => c ≠ '/')).reverse

/-- p is an immediate child path of directory d: d, the separator, then a
nonempty child name containing no separator. -/
def isChild (d p : Path) : Bool :=
  (d ++ ['/']).isPrefixOf p && !(p.drop (d.length + 1)).isEmpty
    && !(decide ('/' ∈ p.drop (d.length + 1)))

def childrenOf (es : List (Path × Entry)) (d : Path) : List Path :=
  (es.map Prod.fst).filter (fun p => isChild d p)

/-- os.path.exists: False when stat raises, else presence of the entry. -/
def pexists (fs : FileSys) (p : Path) : Bool :=
  if p ∈ fs.statFail then false else (lookupFS fs.entries p).isSome

/-- os.path.isdir: False when stat raises, else whether the entry is a directory. -/
def isdir (fs : FileSys) (p : Path) : Bool :=
  if p ∈ fs.statFail then false
  else
    match lookupFS fs.entries p with
    | some (.dir _) => true
    | _ => false

/-- st_size reported for a directory (platform block size; a concrete stand-in). -/
def dirStSize : Nat := 4096

/-- os.path.getsize: raises on stat failure or missing path. -/
def getsize (fs : FileSys) (p : Path) : PyRes Nat :=
  if p ∈ fs.statFail then .exn
  else
    match lookupFS fs.entries p with
    | some (.file c _) => .ok c.length
    | some (.dir _) => .ok dirStSize
    | none => .exn

/-- os.stat(p).st_mode: raises on stat failure or missing path. -/
def statMode (fs : FileSys) (p : Path) : PyRes Nat :=
  if p ∈ fs.statFail then .exn
  else
    match lookupFS fs.entries p with
    | some (.file _ m) => .ok m
    | some (.dir m) => .ok m
    | none => .exn

/-- Opening for read and reading the whole content: raises on injected read
failure, on a directory, or on a missing path. -/
def readAll (fs : FileSys) (p : Path) : PyRes (List Nat) :=
  if p ∈ fs.readFail then .exn
  else
    match lookupFS fs.entries p with
    | some (.file c _) => .ok c
    | _ => .exn

/-- Synchronizer.file_hash: the chunked SHA-256 loop over the whole content,
with the try/except returning no value (None, modelled as Option.none) when
the read raises.  The digest function itself is a parameter hashFn. -/
def file_hash (hashFn : List Nat → List Nat) (fs : FileSys) (p : Path) : Option (List Nat) :=
  match readAll fs p with
  | .ok c => some (hashFn c)
  | .exn => none

/-- Synchronizer.compare_files: size, then hash, then permission bits, with the
uncaught exceptions of getsize / os.stat propagating to the caller. -/
def compare_files (hashFn : List Nat → List Nat) (fs : FileSys) (f1 f2 : Path) : PyRes Bool :=
  match getsize fs f1 with
  | .exn => .exn
  | .ok s1 =>
    match getsize fs f2 with
    | .exn => .exn
    | .ok s2 =>
      if s1 ≠ s2 then .ok false
      else if file_hash hashFn fs f1 ≠ file_hash hashFn fs f2 then .ok false
      else
        match statMode fs f1 with
        | .exn => .exn
        | .ok m1 =>
          match statMode fs f2 with
          | .exn => .exn
          | .ok m2 => .ok (decide (m1 = m2))

/-- Synchronizer.list_files: os.listdir joined onto the absolute directory
path; raises when the path is not an existing directory. -/
def list_files (fs : FileSys) (d : Path) : PyRes (List Path) :=
  match lookupFS fs.entries d with
  | some (.dir _) => .ok (childrenOf fs.entries d)
  | _ => .exn

/-- os.remove: deletes a regular file, raises on a directory or missing path. -/
def os_remove (fs : FileSys) (p : Path) : PyRes FileSys :=
  match lookupFS fs.entries p with
  | some (.file _ _) => .ok { fs with entries := removeEntry fs.entries p }
  | _ => .exn

/-- Default permission bits of a fresh os.mkdir before the following chmod. -/
def defaultDirMode : Nat := 511

/-- os.mkdir: raises when the path exists or the parent is not a directory. -/
def os_mkdir (fs : FileSys) (p : Path) : PyRes FileSys :=
  if (lookupFS fs.entries p).isSome then .exn
  else
    match lookupFS fs.entries (parentPath p) with
    | some (.dir _) => .ok { fs with entries := fs.entries ++ [(p, .dir defaultDirMode)] }
    | _ => .exn

/-- os.chmod: raises on a missing path. -/
def os_chmod (fs : FileSys) (p : Path) (m : Nat) : PyRes FileSys :=
  match lookupFS fs.entries p with
  | some (.file c _) => .ok { fs with entries := setEntry fs.entries p (.file c m) }
  | some (.dir _) => .ok { fs with entries := setEntry fs.entries p (.dir m) }
  | none => .exn

/-- shutil.copy / shutil.copy2: reads the source file and writes its content
and permission bits to the destination; copying onto an existing directory
drops the file inside it under the source's base name. -/
def shutil_copy (fs : FileSys) (src dst : Path) : PyRes FileSys :=
  if src ∈ fs.readFail then .exn
  else
    match lookupFS fs.entries src with
    | some (.file c m) =>
      match lookupFS fs.entries dst with
      | some (.dir _) =>
        .ok { fs with entries := setEntry fs.entries (dst ++ '/' :: baseName src) (.file c m) }
      | some (.file _ _) => .ok { fs with entries := setEntry fs.entries dst (.file c m) }
      | none =>
        match lookupFS fs.entries (parentPath dst) with
        | some (.dir _) => .ok { fs with entries := setEntry fs.entries dst (.file c m) }
        | _ => .exn
    | _ => .exn

/-- shutil.rmtree: removes a directory together with its whole subtree. -/
def shutil_rmtree (fs : FileSys) (p : Path) : PyRes FileSys :=
  match lookupFS fs.entries p with
  | some (.dir _) => .ok { fs with entries := rmtreeEntries fs.entries p }
  | _ => .exn

/-- Python str.replace: replaces every non-overlapping occurrence of old by
new, scanning left to right; this is the operation the source applies to turn
a path in one tree into its counterpart in the other tree. -/
def replaceGo (old new : List Char) : Nat → List Char → List Char
  | 0, s => s
  | _ + 1, [] => []
  | f + 1, c :: rest =>
    if old.isPrefixOf (c :: rest) then
      new ++ replaceGo old new f (rest.drop (old.length - 1))
    else
      c :: replaceGo old new f rest

def strReplace (old new s : List Char) : List Char :=
  match old with
  | [] => new ++ s.foldr (fun c acc => c :: (new ++ acc)) []
  | _ :: _ => replaceGo old new s.length s

/-- Synchronizer.calculate_operation_result. -/
def calculate_operation_result (rs : List Int) : Int :=
  if (-1 : Int) ∈ rs then -1
  else if ¬((1 : Int) ∈ rs) then 0
  else 1

/-- Synchronizer.create_file: shutil.copy wrapped in try/except. -/
def create_file (fs : FileSys) (source_file replica_file : Path) :
    Int × FileSys × List WOp :=
  match shutil_copy fs source_file replica_file with
  | .ok fs1 => (1, fs1, [.copyOp replica_file])
  | .exn => (-1, fs, [.copyOp replica_file])

/-- Synchronizer.update_file: os.remove then shutil.copy2, in one try/except;
a failure after the removal keeps the removal. -/
def update_file (fs : FileSys) (source_file replica_file : Path) :
    Int × FileSys × List WOp :=
  match os_remove fs replica_file with
  | .exn => (-1, fs, [.removeOp replica_file])
  | .ok fs1 =>
    match shutil_copy fs1 source_file replica_file with
    | .ok fs2 => (1, fs2, [.removeOp replica_file, .copyOp replica_file])
    | .exn => (-1, fs1, [.removeOp replica_file, .copyOp replica_file])

/-- Synchronizer.remove_file: os.remove wrapped in try/except. -/
def remove_file (fs : FileSys) (p : Path) : Int × FileSys × List WOp :=
  match os_remove fs p with
  | .ok fs1 => (1, fs1, [.removeOp p])
  | .exn => (-1, fs, [.removeOp p])

/-- Synchronizer.remove_directory: shutil.rmtree wrapped in try/except. -/
def remove_directory (fs : FileSys) (p : Path) : Int × FileSys × List WOp :=
  match shutil_rmtree fs p with
  | .ok fs1 => (1, fs1, [.rmtreeOp p])
  | .exn => (-1, fs, [.rmtreeOp p])

/-- The pending recursive work of the tree walk: the loop bodies of
update_content and remove_content over their remaining entries, and the
directory handlers update_directory and create_directory. -/
inductive Job where
  | upList (entries : List Path)
  | upDir (sourceDir replicaDir : Path)
  | mkDir (sourceDir replicaDir : Path)
  | rmList (entries : List Path)

/-- The recursive walk of the synchroniser as one fuel-indexed interpreter.
upList is the body of update_content (the loop collecting per-entry outcomes,
with the uncaught exceptions of compare_files escaping it), upDir is
update_directory (whose try/except swallows every failure below it), mkDir is
create_directory (mkdir, stat, chmod, then update_directory), and rmList is
the body of remove_content (whose recursion into list_files is not guarded by
any try/except).  The result carries the outcome list, the filesystem, and
the trace of attempted mutations; fuel exhaustion surfaces as PyRes.exn. -/
def runJob (hashFn : List Nat → List Nat) (src rep : Path) :
    Nat → Job → FileSys → PyRes (List Int) × FileSys × List WOp
  | 0, _, fs => (.exn, fs, [])
  | f + 1, job, fs =>
    match job with
    | .upList [] => (.ok [], fs, [])
    | .upList (entry :: rest) =>
      let erp := strReplace src rep entry
      if pexists fs erp = false then
        if isdir fs entry then
          match runJob hashFn src rep f (.mkDir entry erp) fs with
          | (.exn, fs1, tr1) => (.exn, fs1, tr1)
          | (.ok rs, fs1, tr1) =>
            match runJob hashFn src rep f (.upList rest) fs1 with
            | (res, fs2, tr2) => (res.mapv (fun l => rs ++ l), fs2, tr1 ++ tr2)
        else
          match create_file fs entry erp with
          | (r, fs1, tr1) =>
            match runJob hashFn src rep f (.upList rest) fs1 with
            | (res, fs2, tr2) => (res.mapv (fun l => r :: l), fs2, tr1 ++ tr2)
      else if isdir fs entry = false then
        match compare_files hashFn fs entry erp with
        | .exn => (.exn, fs, [])
        | .ok b =>
          if b = false then
            match update_file fs entry erp with
            | (r, fs1, tr1) =>
              match runJob hashFn src rep f (.upList rest) fs1 with
              | (res, fs2, tr2) => (res.mapv (fun l => r :: l), fs2, tr1 ++ tr2)
          else
            runJob hashFn src rep f (.upList rest) fs
      else
        match runJob hashFn src rep f (.upDir entry erp) fs with
        | (.exn, fs1, tr1) => (.exn, fs1, tr1)
        | (.ok rs, fs1, tr1) =>
          match runJob hashFn src rep f (.upList rest) fs1 with
          | (res, fs2, tr2) => (res.mapv (fun l => rs ++ l), fs2, tr1 ++ tr2)
    | .upDir sourceDir replicaDir =>
      match statMode fs sourceDir with
      | .exn => (.ok [-1], fs, [])
      | .ok m =>
        match os_chmod fs replicaDir m with
        | .exn => (.ok [-1], fs, [.chmodOp replicaDir])
        | .ok fs1 =>
          match list_files fs1 sourceDir with
          | .exn => (.ok [-1], fs1, [.chmodOp replicaDir])
          | .ok files =>
            match runJob hashFn src rep f (.upList files) fs1 with
            | (.exn, fs2, tr) => (.ok [-1], fs2, .chmodOp replicaDir :: tr)
            | (.ok rs, fs2, tr) =>
              (.ok [calculate_operation_result rs], fs2, .chmodOp replicaDir :: tr)
    | .mkDir sourceDir replicaDir =>
      match os_mkdir fs replicaDir with
      | .exn => (.ok [-1], fs, [.mkdirOp replicaDir])
      | .ok fs1 =>
        match statMode fs1 sourceDir with
        | .exn => (.ok [-1], fs1, [.mkdirOp replicaDir])
        | .ok m =>
          match os_chmod fs1 replicaDir m with
          | .exn => (.ok [-1], fs1, [.mkdirOp replicaDir, .chmodOp replicaDir])
          | .ok fs2 =>
            match runJob hashFn src rep f (.upDir sourceDir replicaDir) fs2 with
            | (res, fs3, tr) => (res, fs3, .mkdirOp replicaDir :: .chmodOp replicaDir :: tr)
    | .rmList [] => (.ok [], fs, [])
    | .rmList (entry :: rest) =>
      let esp := strReplace rep src entry
      if pexists fs esp = false then
        if isdir fs entry then
          match remove_directory fs entry with
          | (r, fs1, tr1) =>
            match runJob hashFn src rep f (.rmList rest) fs1 with
            | (res, fs2, tr2) => (res.mapv (fun l => r :: l), fs2, tr1 ++ tr2)
        else
          match remove_file fs entry with
          | (r, fs1, tr1) =>
            match runJob hashFn src rep f (.rmList rest) fs1 with
            | (res, fs2, tr2) => (res.mapv (fun l => r :: l), fs2, tr1 ++ tr2)
      else if isdir fs entry then
        match list_files fs entry with
        | .exn => (.exn, fs, [])
        | .ok children =>
          match runJob hashFn src rep f (.rmList children) fs with
          | (.exn, fs1, tr1) => (.exn, fs1, tr1)
          | (.ok rs, fs1, tr1) =>
            match runJob hashFn src rep f (.rmList rest) fs1 with
            | (res, fs2, tr2) =>
              (res.mapv (fun l => calculate_operation_result rs :: l), fs2, tr1 ++ tr2)
      else
        runJob hashFn src rep f (.rmList rest) fs

/-- Synchronizer.update_content on a list of source entries. -/
def update_content (hashFn : List Nat → List Nat) (src rep : Path) (f : Nat)
    (fs : FileSys) (source_files : List Path) : PyRes Int × FileSys × List WOp :=
  match runJob hashFn src rep f (.upList source_files) fs with
  | (res, fs1, tr) => (res.mapv calculate_operation_result, fs1, tr)

/-- Synchronizer.remove_content on a list of replica entries. -/
def remove_content (hashFn : List Nat → List Nat) (src rep : Path) (f : Nat)
    (fs : FileSys) (replica_files : List Path) : PyRes Int × FileSys × List WOp :=
  match runJob hashFn src rep f (.rmList replica_files) fs with
  | (res, fs1, tr) => (res.mapv calculate_operation_result, fs1, tr)

/-- The per-cycle summary classification logged by synchronize_folders. -/
inductive SyncLog where
  | noChanges
  | success
  | errors
deriving DecidableEq

/-- Synchronizer.synchronize_folders: one prune-then-mirror cycle.  The two
root listings and the two passes are not inside any try/except, so an
exception from any of them escapes the whole call. -/
def synchronize_folders (hashFn : List Nat → List Nat) (src rep : Path) (f : Nat)
    (fs : FileSys) : PyRes SyncLog × FileSys × List WOp :=
  match list_files fs rep with
  | .exn => (.exn, fs, [])
  | .ok replica_files =>
    match remove_content hashFn src rep f fs replica_files with
    | (.exn, fs1, tr1) => (.exn, fs1, tr1)
    | (.ok rRes, fs1, tr1) =>
      match list_files fs1 src with
      | .exn => (.exn, fs1, tr1)
      | .ok source_files =>
        match update_content hashFn src rep f fs1 source_files with
        | (.exn, fs2, tr2) => (.exn, fs2, tr1 ++ tr2)
        | (.ok uRes, fs2, tr2) =>
          let log :=
            if rRes = 0 ∧ uRes = 0 then SyncLog.noChanges
            else if rRes ≠ -1 ∧ uRes ≠ -1 then SyncLog.success
            else SyncLog.errors
          (.ok log, fs2, tr1 ++ tr2)

/-- The state of the scheduling loop after at most a given number of
iterations: still running after completing that many cycles, or terminated by
an exception after completing the recorded number of cycles. -/
inductive RunState where
  | running (fs : FileSys) (cyclesDone : Nat)
  | crashed (fs : FileSys) (cyclesDone : Nat)
deriving DecidableEq

/-- Synchronizer.start: the while-True loop calling synchronize_folders; it
has no exception handler, so an exception escaping a cycle ends the loop. -/
def start (hashFn : List Nat → List Nat) (src rep : Path) (f : Nat) :
    Nat → FileSys → RunState
  | 0, fs => .running fs 0
  | n + 1, fs =>
    match synchronize_folders hashFn src rep f fs with
    | (.exn, fs1, _) => .crashed fs1 0
    | (.ok _, fs1, _) =>
      match start hashFn src rep f n fs1 with
      | .running fs2 k => .running fs2 (k + 1)
      | .crashed fs2 k => .crashed fs2 (k + 1)

/-- Modelled from the spec: the counterpart of an entry is located by
root-prefix substitution, replacing the leading root prefix and changing
nothing else in the path. -/
def prefixSubstitute (old new p : Path) : Path :=
  if old.isPrefixOf p then new ++ p.drop old.length else p

/-- p is the root itself or lies strictly under it. -/
def underOrEq (root p : Path) : Prop := p = root ∨ root ++ ['/'] <+: p

/-- The inductive invariant on pending jobs for the write-confinement proof:
mirror-side entries lie under the source root and replica-side directory
arguments extend the replica root; prune-side entries lie under the replica
root. -/
def JobHyp (src rep : Path) : Job → Prop
  | .upList es => ∀ e ∈ es, ∃ t, e = src ++ '/' :: t
  | .upDir s r => (∃ t, s = src ++ '/' :: t) ∧ rep <+: r
  | .mkDir s r => (∃ t, s = src ++ '/' :: t) ∧ rep <+: r
  | .rmList es => ∀ e ∈ es, ∃ t, e = rep ++ '/' :: t


/-! ### Concrete inputs used by the claim evaluations and witnesses -/

def pS : Path := ['/', 's']
def pR : Path := ['/', 'r']
def pSS : Path := ['/', 's', '/', 's']
def pSR : Path := ['/', 's', '/', 'r']
def pRR : Path := ['/', 'r', '/', 'r']
def pRS : Path := ['/', 'r', '/', 's']
def pA : Path := ['/', 'a']
def pB : Path := ['/', 'b']
def pSA : Path := ['/', 's', '/', 'a']
def pSB : Path := ['/', 's', '/', 'b']
def pRA : Path := ['/', 'r', '/', 'a']
def pSD : Path := ['/', 's', '/', 'd']
def pRD : Path := ['/', 'r', '/', 'd']
def pRDX : Path := ['/', 'r', '/', 'd', '/', 'x']
def pRDY : Path := ['/', 'r', '/', 'd', '/', 'y']
def pRDYZ : Path := ['/', 'r', '/', 'd', '/', 'y', '/', 'z']

/-- Source root /s containing one file named s; replica root /r empty. -/
def fsC1 : FileSys := ⟨[(pS, .dir 493), (pR, .dir 493), (pSS, .file [104, 105] 420)], [], []⟩

/-- Two regular files of equal size and equal permission bits, both unreadable. -/
def fsC2 : FileSys := ⟨[(pA, .file [65, 66] 420), (pB, .file [67, 68] 420)], [], [pA, pB]⟩

/-- Two source files whose replica counterpart exists for the first; the first
source file has its metadata reads failing. -/
def fsC3 : FileSys :=
  ⟨[(pS, .dir 493), (pR, .dir 493), (pSA, .file [65] 420), (pSB, .file [66] 420),
    (pRA, .file [65] 420)], [pSA], []⟩

/-- A source file whose replica counterpart is a directory, with one sibling. -/
def fsC3w : FileSys :=
  ⟨[(pS, .dir 493), (pR, .dir 493), (pSA, .file [65] 420), (pSB, .file [66] 420),
    (pRA, .dir 493)], [], []⟩

/-- Two regular files with equal content and different permission bits. -/
def fsC5w : FileSys := ⟨[(pA, .file [65, 66] 420), (pB, .file [65, 66] 384)], [], []⟩

/-- Source root /s containing files named r and s; replica root /r empty. -/
def fsC6 : FileSys :=
  ⟨[(pS, .dir 493), (pR, .dir 493), (pSR, .file [65] 420), (pSS, .file [66] 420)], [], []⟩

/-- The filesystem after one cycle on fsC6. -/
def fsC6b : FileSys := (synchronize_folders (fun c => c) pS pR 8 fsC6).2.1

/-- A source root with no replica root: the root replica listing raises. -/
def fsC7 : FileSys := ⟨[(pS, .dir 493)], [], []⟩

/-- A small mirror pair used to witness the write-confinement theorem. -/
def fsC9w : FileSys := ⟨[(pS, .dir 493), (pR, .dir 493), (pSS, .file [104] 420)], [], []⟩

/-- A source file at relative path d with a replica directory at the same
relative path, holding a file, and a subdirectory with one file inside. -/
def fsC10w : FileSys :=
  ⟨[(pS, .dir 493), (pR, .dir 493), (pSD, .file [65] 420), (pRD, .dir 493),
    (pRDX, .file [66] 420), (pRDY, .dir 489), (pRDYZ, .file [67] 420)], [], []⟩

/-- A source file with no replica counterpart whose content read raises, so
that the creating copy fails. -/
def fsW1 : FileSys := ⟨[(pS, .dir 493), (pSA, .file [65] 420)], [], [pSA]⟩

/-- A source directory with no replica counterpart and no replica root, so
that the creating mkdir fails for want of a parent. -/
def fsW2 : FileSys := ⟨[(pS, .dir 493), (pSD, .dir 493)], [], []⟩

/-- A source file differing in size from its replica counterpart, whose
content read raises, so that the update fails at the copy step after the
removal step succeeded. -/
def fsW5 : FileSys :=
  ⟨[(pS, .dir 493), (pR, .dir 493), (pSA, .file [65] 420), (pRA, .file [66, 67] 420)],
   [], [pSA]⟩

/-- The state fsW5 reaches after the update's removal step. -/
def fsW5b : FileSys :=
  ⟨[(pS, .dir 493), (pR, .dir 493), (pSA, .file [65] 420)], [], [pSA]⟩

/-- A replica entry with no source counterpart that is really a directory but
whose stat raises, so the prune pass takes it for a file and its unlink
fails. -/
def fsW6 : FileSys := ⟨[(pR, .dir 493), (pRA, .dir 493)], [pRA], []⟩

/-- A replica root holding one stale file, with no source root at all: the
prune pass runs, then the root source listing raises. -/
def fsC7b : FileSys := ⟨[(pR, .dir 493), (pRA, .file [65] 420)], [], []⟩

/-- The state fsC7b reaches after the prune pass removes the stale file. -/
def fsC7c : FileSys := ⟨[(pR, .dir 493)], [], []⟩

/-! ### Basic lemmas about paths and the association-list filesystem -/

theorem isPrefixOf_true (l1 l2 : List Char) : l1.isPrefixOf l2 = true ↔ l1 <+: l2 := by
  induction l1 generalizing l2 with
  | nil => simp [List.isPrefixOf, List.nil_prefix]
  | cons a t ih =>
    cases l2 with
    | nil => simp [List.isPrefixOf]
    | cons b t2 => simp [List.isPrefixOf, ih, List.cons_prefix_cons, beq_iff_eq]

theorem prefixTotal {l1 l2 l3 : List Char} (h1 : l1 <+: l3) (h2 : l2 <+: l3) :
    l1 <+: l2 ∨ l2 <+: l1 := by
  rcases le_total l1.length l2.length with h | h
  · exact Or.inl (List.prefix_of_prefix_length_le h1 h2 h)
  · exact Or.inr (List.prefix_of_prefix_length_le h2 h1 h)

theorem repNotUnderSrc {src rep : Path} (h1 : ¬ src <+: rep) (h2 : ¬ rep <+: src)
    {q : Path} (hq : rep <+: q) : ¬ underOrEq src q := by
  intro hu
  cases hu with
  | inl h => exact h2 (h ▸ hq)
  | inr h =>
    rcases prefixTotal h hq with hc | hc
    · exact h1 ((List.prefix_append src ['/']).trans hc)
    · rcases le_or_lt rep.length src.length with hl | hl
      · exact h2 (List.prefix_of_prefix_length_le hc (List.prefix_append src ['/']) hl)
      · have hlen : rep.length = (src ++ ['/']).length := by
          have := hc.length_le
          simp only [List.length_append, List.length_cons, List.length_nil] at this ⊢
          omega
        have heq : rep = src ++ ['/'] := List.IsPrefix.eq_of_length hc hlen
        exact h1 (heq ▸ List.prefix_append src ['/'])

theorem isUnder_length {d p : Path} (h : isUnder d p = true) : d.length < p.length := by
  have := ((isPrefixOf_true _ _).mp h).length_le
  simp only [List.length_append, List.length_cons, List.length_nil] at this
  omega

theorem isUnder_trans {a b c : Path} (h1 : isUnder a b = true) (h2 : isUnder b c = true) :
    isUnder a c = true := by
  rw [isUnder, isPrefixOf_true] at h1 h2 ⊢
  exact h1.trans ((List.prefix_append b ['/']).trans h2)

theorem under_compat {a b q : Path} (ha : isUnder a q = true) (hb : isUnder b q = true) :
    a = b ∨ isUnder a b = true ∨ isUnder b a = true := by
  rw [isUnder, isPrefixOf_true] at ha hb
  have key : ∀ x y : Path, x ++ ['/'] <+: y ++ ['/'] → x.length ≤ y.length →
      x = y ∨ isUnder x y = true := by
    intro x y hxy hl
    rcases Nat.eq_or_lt_of_le hl with he | hlt
    · left
      have hle : (x ++ ['/']).length = (y ++ ['/']).length := by simp [he]
      have := List.IsPrefix.eq_of_length hxy hle
      exact List.append_cancel_right this
    · right
      rw [isUnder, isPrefixOf_true]
      refine List.prefix_of_prefix_length_le hxy (List.prefix_append y ['/']) ?_
      simp only [List.length_append, List.length_cons, List.length_nil]
      omega
  rcases prefixTotal ha hb with hc | hc
  · have hle : a.length ≤ b.length := by
      have := hc.length_le
      simp only [List.length_append, List.length_cons, List.length_nil] at this
      omega
    rcases key a b hc hle with h | h
    · exact Or.inl h
    · exact Or.inr (Or.inl h)
  · have hle : b.length ≤ a.length := by
      have := hc.length_le
      simp only [List.length_append, List.length_cons, List.length_nil] at this
      omega
    rcases key b a hc hle with h | h
    · exact Or.inl h.symm
    · exact Or.inr (Or.inr h)

theorem ne_of_confined {src rep : Path} (h1 : ¬ src <+: rep) (h2 : ¬ rep <+: src)
    {q p : Path} (hq : rep <+: q) (hp : underOrEq src p) :
    p ≠ q ∧ isUnder q p = false := by
  constructor
  · intro h
    exact repNotUnderSrc h1 h2 (h ▸ hq) hp
  · by_contra hb
    simp only [Bool.not_eq_false] at hb
    have hqp : q ++ ['/'] <+: p := (isPrefixOf_true _ _).mp hb
    exact repNotUnderSrc h1 h2 (hq.trans ((List.prefix_append q ['/']).trans hqp)) hp

theorem lookupFS_append (es1 es2 : List (Path × Entry)) (p : Path) :
    lookupFS (es1 ++ es2) p =
      match lookupFS es1 p with
      | some e => some e
      | none => lookupFS es2 p := by
  induction es1 with
  | nil => simp [lookupFS]
  | cons a t ih =>
    obtain ⟨q, e⟩ := a
    by_cases h : q = p <;> simp [lookupFS, h, ih]

theorem lookupFS_map_set (es : List (Path × Entry)) (q : Path) (e : Entry) (p : Path)
    (h : p ≠ q) :
    lookupFS (es.map (fun x => if x.1 = q then (q, e) else x)) p = lookupFS es p := by
  induction es with
  | nil => rfl
  | cons a t ih =>
    obtain ⟨q1, e1⟩ := a
    by_cases hq : q1 = q
    · subst hq
      have hhead : (fun x : Path × Entry => if x.1 = q1 then (q1, e) else x) (q1, e1)
          = (q1, e) := by simp
      simp only [List.map_cons, hhead]
      simp [lookupFS, Ne.symm h, ih]
    · simp only [List.map_cons]
      rw [if_neg (by simpa using hq)]
      by_cases hp : q1 = p <;> simp [lookupFS, hp, ih]

theorem lookupFS_setEntry (es : List (Path × Entry)) (q : Path) (e : Entry) (p : Path)
    (h : p ≠ q) : lookupFS (setEntry es q e) p = lookupFS es p := by
  unfold setEntry
  split
  · exact lookupFS_map_set es q e p h
  · rw [lookupFS_append]
    cases hl : lookupFS es p <;> simp [lookupFS, Ne.symm h, hl]

theorem lookupFS_filter_keep (es : List (Path × Entry)) (pr : Path × Entry → Bool) (p : Path)
    (h : ∀ e : Entry, pr (p, e) = true) :
    lookupFS (es.filter pr) p = lookupFS es p := by
  induction es with
  | nil => rfl
  | cons a t ih =>
    obtain ⟨q, e⟩ := a
    rw [List.filter_cons]
    by_cases hq : q = p
    · subst hq
      rw [if_pos (h e)]
      simp [lookupFS, ih]
    · by_cases hp : pr (q, e) = true <;> simp [hp, lookupFS, hq, ih]

theorem lookupFS_filter_none (es : List (Path × Entry)) (pr : Path × Entry → Bool) (p : Path)
    (h : lookupFS es p = none) : lookupFS (es.filter pr) p = none := by
  induction es with
  | nil => rfl
  | cons a t ih =>
    obtain ⟨q, e⟩ := a
    rw [List.filter_cons]
    by_cases hq : q = p
    · subst hq
      simp [lookupFS] at h
    · simp only [lookupFS, hq, if_false] at h
      by_cases hp : pr (q, e) = true <;> simp [hp, lookupFS, hq, ih h]

theorem lookupFS_removeEntry (es : List (Path × Entry)) (q p : Path) (h : p ≠ q) :
    lookupFS (removeEntry es q) p = lookupFS es p := by
  refine lookupFS_filter_keep es _ p (fun e => ?_)
  simp [h]

theorem lookupFS_removeEntry_self (es : List (Path × Entry)) (q : Path) :
    lookupFS (removeEntry es q) q = none := by
  induction es with
  | nil => rfl
  | cons a t ih =>
    obtain ⟨p1, e1⟩ := a
    rw [removeEntry, List.filter_cons]
    by_cases hq : p1 = q
    · subst hq
      simpa [removeEntry] using ih
    · simpa [hq, lookupFS, removeEntry] using ih

theorem lookupFS_rmtree (es : List (Path × Entry)) (q p : Path) (h1 : p ≠ q)
    (h2 : isUnder q p = false) : lookupFS (rmtreeEntries es q) p = lookupFS es p := by
  refine lookupFS_filter_keep es _ p (fun e => ?_)
  simp [h1, h2]

theorem lookupFS_rmtree_gone (es : List (Path × Entry)) (q p : Path)
    (h : p = q ∨ isUnder q p = true) : lookupFS (rmtreeEntries es q) p = none := by
  induction es with
  | nil => rfl
  | cons a t ih =>
    obtain ⟨p1, e1⟩ := a
    rw [rmtreeEntries, List.filter_cons]
    by_cases hk : (!(decide (p1 = q)) && !(isUnder q p1)) = true
    · rw [if_pos hk]
      have hne : p1 ≠ p := by
        intro he
        subst he
        simp only [Bool.and_eq_true, Bool.not_eq_true', decide_eq_false_iff_not,
          Bool.not_eq_true] at hk
        rcases h with h | h
        · exact hk.1 h
        · rw [h] at hk
          simp at hk
      simpa [lookupFS, hne, rmtreeEntries] using ih
    · rw [if_neg hk]
      simpa [rmtreeEntries] using ih

theorem lookupFS_isSome_of_mem_fst {es : List (Path × Entry)} {p : Path}
    (h : p ∈ es.map Prod.fst) : (lookupFS es p).isSome = true := by
  induction es with
  | nil => simp at h
  | cons a t ih =>
    obtain ⟨q, e⟩ := a
    by_cases hq : q = p
    · simp [lookupFS, hq]
    · simp only [List.map_cons, List.mem_cons] at h
      rcases h with h | h
      · exact absurd h.symm hq
      · simp [lookupFS, hq, ih h]

theorem mem_fst_of_lookupFS_isSome {es : List (Path × Entry)} {p : Path}
    (h : (lookupFS es p).isSome = true) : p ∈ es.map Prod.fst := by
  induction es with
  | nil =>
    simp only [lookupFS, Option.isSome_none] at h
    exact absurd h (by decide)
  | cons a t ih =>
    obtain ⟨q, e⟩ := a
    by_cases hq : q = p
    · subst hq
      rw [List.map_cons]
      exact List.mem_cons_self _ _
    · simp only [lookupFS, hq, if_false] at h
      rw [List.map_cons]
      exact List.mem_cons_of_mem _ (ih h)

theorem childrenOf_shape {es : List (Path × Entry)} {d p : Path} (h : p ∈ childrenOf es d) :
    ∃ t, p = d ++ '/' :: t := by
  unfold childrenOf at h
  have hc := List.of_mem_filter h
  unfold isChild at hc
  simp only [Bool.and_eq_true] at hc
  obtain ⟨t, ht⟩ := (isPrefixOf_true _ _).mp hc.1.1
  exact ⟨t, by rw [← ht, List.append_assoc]; rfl⟩

theorem childrenOf_under {es : List (Path × Entry)} {d p : Path} (h : p ∈ childrenOf es d) :
    isUnder d p = true := by
  unfold childrenOf at h
  have hc := List.of_mem_filter h
  unfold isChild at hc
  simp only [Bool.and_eq_true] at hc
  exact hc.1.1

theorem childrenOf_mem_fst {es : List (Path × Entry)} {d p : Path} (h : p ∈ childrenOf es d) :
    p ∈ es.map Prod.fst := (List.mem_filter.mp h).1

theorem childrenOf_sibling {es : List (Path × Entry)} {d a b : Path}
    (ha : a ∈ childrenOf es d) (hb : b ∈ childrenOf es d) : isUnder a b = false := by
  have hca := List.of_mem_filter ha
  have hcb := List.of_mem_filter hb
  unfold isChild at hca hcb
  simp only [Bool.and_eq_true] at hca hcb
  by_contra hu
  simp only [Bool.not_eq_false] at hu
  obtain ⟨u, hbu⟩ := (isPrefixOf_true _ _).mp hu
  obtain ⟨ta, hta⟩ := (isPrefixOf_true _ _).mp hca.1.1
  have hdl : (d ++ ['/']).length = d.length + 1 := by simp
  have hbform : b = (d ++ ['/']) ++ (ta ++ '/' :: u) := by
    rw [← hbu, ← hta]
    simp [List.append_assoc]
  have hdrop : b.drop (d.length + 1) = ta ++ '/' :: u := by
    rw [hbform, ← hdl, List.drop_left]
  have hmem : '/' ∈ b.drop (d.length + 1) := by
    rw [hdrop]
    simp
  have hb3 := hcb.2
  simp only [Bool.not_eq_true', decide_eq_false_iff_not] at hb3
  exact hb3 hmem

theorem childrenOf_pairwise_indep {es : List (Path × Entry)} {d : Path}
    (hnd : (es.map Prod.fst).Nodup) :
    (childrenOf es d).Pairwise
      (fun a b => a ≠ b ∧ isUnder a b = false ∧ isUnder b a = false) := by
  have hdn : (childrenOf es d).Nodup := hnd.filter _
  refine List.Pairwise.imp_of_mem ?_ hdn
  intro a b ha hb hne
  exact ⟨hne, childrenOf_sibling ha hb, childrenOf_sibling hb ha⟩

theorem strReplace_prefix_image (c : Char) (cs rep : List Char) (u : List Char) :
    rep <+: strReplace (c :: cs) rep ((c :: cs) ++ u) := by
  have hpre : (c :: cs).isPrefixOf (c :: (cs ++ u)) = true := by
    rw [isPrefixOf_true]
    simpa using List.prefix_append (c :: cs) u
  show rep <+: replaceGo (c :: cs) rep ((c :: cs) ++ u).length ((c :: cs) ++ u)
  have hlen : ((c :: cs) ++ u).length = (cs ++ u).length + 1 := by simp
  rw [hlen]
  show rep <+: replaceGo (c :: cs) rep ((cs ++ u).length + 1) (c :: (cs ++ u))
  rw [replaceGo, if_pos hpre]
  exact List.prefix_append rep _

theorem erp_prefixed {src rep : Path} (hsrc : src ≠ []) {e : Path}
    (he : ∃ t, e = src ++ '/' :: t) : rep <+: strReplace src rep e := by
  obtain ⟨t, rfl⟩ := he
  match src, hsrc with
  | c :: cs, _ => exact strReplace_prefix_image c cs rep ('/' :: t)

theorem isdir_true_lookup {fs : FileSys} {p : Path} (h : isdir fs p = true) :
    ∃ m, lookupFS fs.entries p = some (.dir m) := by
  unfold isdir at h
  by_cases hs : p ∈ fs.statFail
  · simp [hs] at h
  · rw [if_neg hs] at h
    cases hl : lookupFS fs.entries p with
    | none => rw [hl] at h; simp at h
    | some e =>
      cases e with
      | file c m => rw [hl] at h; simp at h
      | dir m => exact ⟨m, rfl⟩

theorem isdir_false_file {fs : FileSys} {p : Path} (hd : isdir fs p = false)
    (hs : (lookupFS fs.entries p).isSome = true) (hns : p ∉ fs.statFail) :
    ∃ c m, lookupFS fs.entries p = some (.file c m) := by
  unfold isdir at hd
  rw [if_neg hns] at hd
  cases hl : lookupFS fs.entries p with
  | none => rw [hl] at hs; simp at hs
  | some e =>
    cases e with
    | file c m => exact ⟨c, m, rfl⟩
    | dir m => rw [hl] at hd; simp at hd

theorem list_files_ok {fs : FileSys} {d : Path} {l : List Path}
    (h : list_files fs d = .ok l) : l = childrenOf fs.entries d := by
  unfold list_files at h
  split at h
  · cases h; rfl
  · cases h

theorem isdir_eq_of_lookup {fs1 fs2 : FileSys} {p : Path}
    (hl : lookupFS fs1.entries p = lookupFS fs2.entries p)
    (hs : fs1.statFail = fs2.statFail) : isdir fs1 p = isdir fs2 p := by
  unfold isdir
  rw [hl, hs]

/-! ### Frame and trace lemmas for the filesystem primitives -/

theorem os_chmod_frame {fs fs1 : FileSys} {q : Path} {m : Nat}
    (h : os_chmod fs q m = .ok fs1) {p : Path} (hne : p ≠ q) :
    lookupFS fs1.entries p = lookupFS fs.entries p := by
  unfold os_chmod at h
  split at h <;> cases h <;> exact lookupFS_setEntry _ _ _ _ hne

theorem os_chmod_oracles {fs fs1 : FileSys} {q : Path} {m : Nat}
    (h : os_chmod fs q m = .ok fs1) :
    fs1.statFail = fs.statFail ∧ fs1.readFail = fs.readFail := by
  unfold os_chmod at h
  split at h <;> cases h <;> exact ⟨rfl, rfl⟩

theorem os_mkdir_frame {fs fs1 : FileSys} {q : Path}
    (h : os_mkdir fs q = .ok fs1) {p : Path} (hne : p ≠ q) :
    lookupFS fs1.entries p = lookupFS fs.entries p := by
  unfold os_mkdir at h
  split at h
  · cases h
  · split at h <;> cases h
    rw [lookupFS_append]
    cases hl : lookupFS fs.entries p <;> simp [lookupFS, Ne.symm hne, hl]

theorem os_mkdir_oracles {fs fs1 : FileSys} {q : Path}
    (h : os_mkdir fs q = .ok fs1) :
    fs1.statFail = fs.statFail ∧ fs1.readFail = fs.readFail := by
  unfold os_mkdir at h
  split at h
  · cases h
  · split at h <;> cases h
    exact ⟨rfl, rfl⟩

theorem os_remove_frame {fs fs1 : FileSys} {q : Path}
    (h : os_remove fs q = .ok fs1) {p : Path} (hne : p ≠ q) :
    lookupFS fs1.entries p = lookupFS fs.entries p := by
  unfold os_remove at h
  split at h <;> cases h
  exact lookupFS_removeEntry _ _ _ hne

theorem os_remove_oracles {fs fs1 : FileSys} {q : Path}
    (h : os_remove fs q = .ok fs1) :
    fs1.statFail = fs.statFail ∧ fs1.readFail = fs.readFail := by
  unfold os_remove at h
  split at h <;> cases h
  exact ⟨rfl, rfl⟩

theorem shutil_rmtree_frame {fs fs1 : FileSys} {q : Path}
    (h : shutil_rmtree fs q = .ok fs1) {p : Path} (hne : p ≠ q)
    (hnu : isUnder q p = false) :
    lookupFS fs1.entries p = lookupFS fs.entries p := by
  unfold shutil_rmtree at h
  split at h <;> cases h
  exact lookupFS_rmtree _ _ _ hne hnu

theorem shutil_rmtree_oracles {fs fs1 : FileSys} {q : Path}
    (h : shutil_rmtree fs q = .ok fs1) :
    fs1.statFail = fs.statFail ∧ fs1.readFail = fs.readFail := by
  unfold shutil_rmtree at h
  split at h <;> cases h
  exact ⟨rfl, rfl⟩

theorem shutil_copy_frame {fs fs1 : FileSys} {a b : Path}
    (h : shutil_copy fs a b = .ok fs1) {p : Path} (h1 : p ≠ b)
    (h2 : p ≠ b ++ '/' :: baseName a) :
    lookupFS fs1.entries p = lookupFS fs.entries p := by
  unfold shutil_copy at h
  split at h
  · cases h
  · split at h
    · split at h
      · cases h
        exact lookupFS_setEntry _ _ _ _ h2
      · cases h
        exact lookupFS_setEntry _ _ _ _ h1
      · split at h <;> cases h
        exact lookupFS_setEntry _ _ _ _ h1
    · cases h

theorem shutil_copy_oracles {fs fs1 : FileSys} {a b : Path}
    (h : shutil_copy fs a b = .ok fs1) :
    fs1.statFail = fs.statFail ∧ fs1.readFail = fs.readFail := by
  unfold shutil_copy at h
  split at h
  · cases h
  · split at h
    · split at h
      · cases h; exact ⟨rfl, rfl⟩
      · cases h; exact ⟨rfl, rfl⟩
      · split at h <;> cases h
        exact ⟨rfl, rfl⟩
    · cases h

theorem create_file_trace (fs : FileSys) (a b : Path) :
    ∀ w ∈ (create_file fs a b).2.2, wopPath w = b := by
  unfold create_file
  cases h : shutil_copy fs a b <;> simp [wopPath]

theorem create_file_frame (fs : FileSys) (a b : Path) {p : Path} (hp1 : p ≠ b)
    (hp2 : p ≠ b ++ '/' :: baseName a) :
    lookupFS (create_file fs a b).2.1.entries p = lookupFS fs.entries p := by
  unfold create_file
  cases h : shutil_copy fs a b with
  | ok fs1 => exact shutil_copy_frame h hp1 hp2
  | exn => rfl

theorem update_file_trace (fs : FileSys) (a b : Path) :
    ∀ w ∈ (update_file fs a b).2.2, wopPath w = b := by
  unfold update_file
  cases h : os_remove fs b with
  | exn => simp [wopPath]
  | ok fs1 => cases h2 : shutil_copy fs1 a b <;> simp [h2, wopPath]

theorem update_file_frame (fs : FileSys) (a b : Path) {p : Path} (hp1 : p ≠ b)
    (hp2 : p ≠ b ++ '/' :: baseName a) :
    lookupFS (update_file fs a b).2.1.entries p = lookupFS fs.entries p := by
  unfold update_file
  cases h : os_remove fs b with
  | exn => rfl
  | ok fs1 =>
    cases h2 : shutil_copy fs1 a b with
    | ok fs2 =>
      simp only [h2]
      rw [shutil_copy_frame h2 hp1 hp2, os_remove_frame h hp1]
    | exn =>
      simp only [h2]
      exact os_remove_frame h hp1

theorem remove_file_trace (fs : FileSys) (b : Path) :
    ∀ w ∈ (remove_file fs b).2.2, wopPath w = b := by
  unfold remove_file
  cases h : os_remove fs b <;> simp [wopPath]

theorem remove_file_frame (fs : FileSys) (b : Path) {p : Path} (hp1 : p ≠ b) :
    lookupFS (remove_file fs b).2.1.entries p = lookupFS fs.entries p := by
  unfold remove_file
  cases h : os_remove fs b with
  | ok fs1 => exact os_remove_frame h hp1
  | exn => rfl

theorem remove_directory_trace (fs : FileSys) (b : Path) :
    ∀ w ∈ (remove_directory fs b).2.2, wopPath w = b := by
  unfold remove_directory
  cases h : shutil_rmtree fs b <;> simp [wopPath]

theorem remove_directory_frame (fs : FileSys) (b : Path) {p : Path} (hp1 : p ≠ b)
    (hp2 : isUnder b p = false) :
    lookupFS (remove_directory fs b).2.1.entries p = lookupFS fs.entries p := by
  unfold remove_directory
  cases h : shutil_rmtree fs b with
  | ok fs1 => exact shutil_rmtree_frame h hp1 hp2
  | exn => rfl

theorem confined_combine {rep src : Path} {fs fs1 fs2 : FileSys} {tr1 tr2 : List WOp}
    (H1w : ∀ w ∈ tr1, rep <+: wopPath w)
    (H1f : ∀ p, underOrEq src p → lookupFS fs1.entries p = lookupFS fs.entries p)
    (H2w : ∀ w ∈ tr2, rep <+: wopPath w)
    (H2f : ∀ p, underOrEq src p → lookupFS fs2.entries p = lookupFS fs1.entries p) :
    (∀ w ∈ tr1 ++ tr2, rep <+: wopPath w) ∧
    (∀ p, underOrEq src p → lookupFS fs2.entries p = lookupFS fs.entries p) := by
  constructor
  · intro w hw
    rcases List.mem_append.mp hw with h | h
    · exact H1w w h
    · exact H2w w h
  · intro p hp
    rw [H2f p hp, H1f p hp]

theorem children_shape_shift {es : List (Path × Entry)} {root s : Path} {t : List Char}
    (hs : s = root ++ '/' :: t) :
    ∀ e ∈ childrenOf es s, ∃ u, e = root ++ '/' :: u := by
  intro e he
  obtain ⟨u, hu⟩ := childrenOf_shape he
  subst hs
  exact ⟨t ++ '/' :: u, by rw [hu, List.append_assoc]; rfl⟩


theorem runJob_confined (hashFn : List Nat → List Nat) {src rep : Path} (hsrc : src ≠ [])
    (h1 : ¬ src <+: rep) (h2 : ¬ rep <+: src) :
    ∀ (f : Nat) (job : Job) (fs : FileSys), JobHyp src rep job →
      (∀ w ∈ (runJob hashFn src rep f job fs).2.2, rep <+: wopPath w) ∧
      (∀ p, underOrEq src p →
        lookupFS (runJob hashFn src rep f job fs).2.1.entries p = lookupFS fs.entries p) := by
  intro f
  induction f with
  | zero =>
    intro job fs _
    simp [runJob]
  | succ f ih =>
    intro job fs hj
    cases job with
    | upList es =>
      cases es with
      | nil => simp [runJob]
      | cons entry rest =>
        simp only [JobHyp] at hj
        have hent : ∃ t, entry = src ++ '/' :: t := hj entry (List.mem_cons_self _ _)
        have hrest : JobHyp src rep (.upList rest) := by
          intro e he
          exact hj e (List.mem_cons_of_mem _ he)
        have herp : rep <+: strReplace src rep entry := erp_prefixed hsrc hent
        have herp2 : rep <+: strReplace src rep entry ++ '/' :: baseName entry :=
          herp.trans (List.prefix_append _ _)
        simp only [runJob]
        by_cases hpe : pexists fs (strReplace src rep entry) = false
        · rw [if_pos hpe]
          by_cases hid : isdir fs entry = true
          · rw [if_pos hid]
            rcases hmk : runJob hashFn src rep f (.mkDir entry (strReplace src rep entry)) fs
              with ⟨res1, fs1, tr1⟩
            have Hmk := ih (.mkDir entry (strReplace src rep entry)) fs ⟨hent, herp⟩
            rw [hmk] at Hmk
            cases res1 with
            | exn =>
              simp only [hmk]
              exact Hmk
            | ok rs =>
              rcases hrun : runJob hashFn src rep f (.upList rest) fs1 with ⟨res2, fs2, tr2⟩
              have Hr := ih (.upList rest) fs1 hrest
              rw [hrun] at Hr
              simp only [hmk, hrun]
              exact confined_combine Hmk.1 Hmk.2 Hr.1 Hr.2
          · rw [if_neg hid]
            rcases hcf : create_file fs entry (strReplace src rep entry) with ⟨r, fs1, tr1⟩
            have Htr := create_file_trace fs entry (strReplace src rep entry)
            rw [hcf] at Htr
            have Hfr : ∀ p, underOrEq src p →
                lookupFS fs1.entries p = lookupFS fs.entries p := by
              intro p hp
              have := create_file_frame fs entry (strReplace src rep entry)
                (ne_of_confined h1 h2 herp hp).1 (ne_of_confined h1 h2 herp2 hp).1
              rw [hcf] at this
              exact this
            rcases hrun : runJob hashFn src rep f (.upList rest) fs1 with ⟨res2, fs2, tr2⟩
            have Hr := ih (.upList rest) fs1 hrest
            rw [hrun] at Hr
            simp only [hcf, hrun]
            refine confined_combine ?_ Hfr Hr.1 Hr.2
            intro w hw
            rw [Htr w hw]
            exact herp
        · rw [if_neg hpe]
          by_cases hid : isdir fs entry = false
          · rw [if_pos hid]
            cases hcmp : compare_files hashFn fs entry (strReplace src rep entry) with
            | exn =>
              simp only [hcmp]
              simp
            | ok b =>
              simp only [hcmp]
              by_cases hb : b = false
              · rw [if_pos hb]
                rcases huf : update_file fs entry (strReplace src rep entry) with ⟨r, fs1, tr1⟩
                have Htr := update_file_trace fs entry (strReplace src rep entry)
                rw [huf] at Htr
                have Hfr : ∀ p, underOrEq src p →
                    lookupFS fs1.entries p = lookupFS fs.entries p := by
                  intro p hp
                  have := update_file_frame fs entry (strReplace src rep entry)
                    (ne_of_confined h1 h2 herp hp).1 (ne_of_confined h1 h2 herp2 hp).1
                  rw [huf] at this
                  exact this
                rcases hrun : runJob hashFn src rep f (.upList rest) fs1 with ⟨res2, fs2, tr2⟩
                have Hr := ih (.upList rest) fs1 hrest
                rw [hrun] at Hr
                simp only [huf, hrun]
                refine confined_combine ?_ Hfr Hr.1 Hr.2
                intro w hw
                rw [Htr w hw]
                exact herp
              · rw [if_neg hb]
                exact ih (.upList rest) fs hrest
          · rw [if_neg hid]
            rcases hud : runJob hashFn src rep f (.upDir entry (strReplace src rep entry)) fs
              with ⟨res1, fs1, tr1⟩
            have Hud := ih (.upDir entry (strReplace src rep entry)) fs ⟨hent, herp⟩
            rw [hud] at Hud
            cases res1 with
            | exn =>
              simp only [hud]
              exact Hud
            | ok rs =>
              rcases hrun : runJob hashFn src rep f (.upList rest) fs1 with ⟨res2, fs2, tr2⟩
              have Hr := ih (.upList rest) fs1 hrest
              rw [hrun] at Hr
              simp only [hud, hrun]
              exact confined_combine Hud.1 Hud.2 Hr.1 Hr.2
    | upDir s r =>
      simp only [JobHyp] at hj
      obtain ⟨⟨t, hs⟩, hr⟩ := hj
      simp only [runJob]
      cases hsm : statMode fs s with
      | exn =>
        simp only [hsm]
        simp
      | ok m =>
        cases hch : os_chmod fs r m with
        | exn =>
          simp only [hsm, hch]
          constructor
          · intro w hw
            simp only [List.mem_singleton] at hw
            subst hw
            exact hr
          · intro p hp
            trivial
        | ok fs1 =>
          have Hf1 : ∀ p, underOrEq src p →
              lookupFS fs1.entries p = lookupFS fs.entries p :=
            fun p hp => os_chmod_frame hch (ne_of_confined h1 h2 hr hp).1
          cases hlf : list_files fs1 s with
          | exn =>
            simp only [hsm, hch, hlf]
            constructor
            · intro w hw
              simp only [List.mem_singleton] at hw
              subst hw
              exact hr
            · exact Hf1
          | ok files =>
            have hshape : JobHyp src rep (.upList files) := by
              have := list_files_ok hlf
              subst this
              exact children_shape_shift hs
            rcases hrun : runJob hashFn src rep f (.upList files) fs1 with ⟨res2, fs2, tr⟩
            have Hr := ih (.upList files) fs1 hshape
            rw [hrun] at Hr
            have Hcomb : (∀ w ∈ WOp.chmodOp r :: tr, rep <+: wopPath w) ∧
                (∀ p, underOrEq src p →
                  lookupFS fs2.entries p = lookupFS fs.entries p) := by
              constructor
              · intro w hw
                rcases List.mem_cons.mp hw with h | h
                · subst h
                  exact hr
                · exact Hr.1 w h
              · intro p hp
                rw [Hr.2 p hp, Hf1 p hp]
            cases res2 with
            | exn =>
              simp only [hsm, hch, hlf, hrun]
              exact Hcomb
            | ok rs =>
              simp only [hsm, hch, hlf, hrun]
              exact Hcomb
    | mkDir s r =>
      simp only [JobHyp] at hj
      obtain ⟨hsx, hr⟩ := hj
      simp only [runJob]
      cases hmk : os_mkdir fs r with
      | exn =>
        simp only [hmk]
        constructor
        · intro w hw
          simp only [List.mem_singleton] at hw
          subst hw
          exact hr
        · intro p hp
          trivial
      | ok fs1 =>
        have Hf1 : ∀ p, underOrEq src p →
            lookupFS fs1.entries p = lookupFS fs.entries p :=
          fun p hp => os_mkdir_frame hmk (ne_of_confined h1 h2 hr hp).1
        cases hsm : statMode fs1 s with
        | exn =>
          simp only [hmk, hsm]
          constructor
          · intro w hw
            simp only [List.mem_singleton] at hw
            subst hw
            exact hr
          · exact Hf1
        | ok m =>
          cases hch : os_chmod fs1 r m with
          | exn =>
            simp only [hmk, hsm, hch]
            constructor
            · intro w hw
              rcases List.mem_cons.mp hw with h | h
              · subst h
                exact hr
              · simp only [List.mem_singleton] at h
                subst h
                exact hr
            · exact Hf1
          | ok fs2 =>
            have Hf2 : ∀ p, underOrEq src p →
                lookupFS fs2.entries p = lookupFS fs1.entries p :=
              fun p hp => os_chmod_frame hch (ne_of_confined h1 h2 hr hp).1
            rcases hud : runJob hashFn src rep f (.upDir s r) fs2 with ⟨res3, fs3, tr⟩
            have Hud := ih (.upDir s r) fs2 ⟨hsx, hr⟩
            rw [hud] at Hud
            simp only [hmk, hsm, hch, hud]
            constructor
            · intro w hw
              rcases List.mem_cons.mp hw with h | h
              · subst h
                exact hr
              · rcases List.mem_cons.mp h with h | h
                · subst h
                  exact hr
                · exact Hud.1 w h
            · intro p hp
              rw [Hud.2 p hp, Hf2 p hp, Hf1 p hp]
    | rmList es =>
      cases es with
      | nil => simp [runJob]
      | cons entry rest =>
        simp only [JobHyp] at hj
        obtain ⟨t, hent⟩ := hj entry (List.mem_cons_self _ _)
        have hentp : rep <+: entry := by
          rw [hent]
          exact List.prefix_append _ _
        have hrest : JobHyp src rep (.rmList rest) := by
          intro e he
          exact hj e (List.mem_cons_of_mem _ he)
        simp only [runJob]
        by_cases hpe : pexists fs (strReplace rep src entry) = false
        · rw [if_pos hpe]
          by_cases hid : isdir fs entry = true
          · rw [if_pos hid]
            rcases hrd : remove_directory fs entry with ⟨r, fs1, tr1⟩
            have Htr := remove_directory_trace fs entry
            rw [hrd] at Htr
            have Hfr : ∀ p, underOrEq src p →
                lookupFS fs1.entries p = lookupFS fs.entries p := by
              intro p hp
              have hne := ne_of_confined h1 h2 hentp hp
              have := remove_directory_frame fs entry hne.1 hne.2
              rw [hrd] at this
              exact this
            rcases hrun : runJob hashFn src rep f (.rmList rest) fs1 with ⟨res2, fs2, tr2⟩
            have Hr := ih (.rmList rest) fs1 hrest
            rw [hrun] at Hr
            simp only [hrd, hrun]
            refine confined_combine ?_ Hfr Hr.1 Hr.2
            intro w hw
            rw [Htr w hw]
            exact hentp
          · rw [if_neg hid]
            rcases hrf : remove_file fs entry with ⟨r, fs1, tr1⟩
            have Htr := remove_file_trace fs entry
            rw [hrf] at Htr
            have Hfr : ∀ p, underOrEq src p →
                lookupFS fs1.entries p = lookupFS fs.entries p := by
              intro p hp
              have hne := ne_of_confined h1 h2 hentp hp
              have := remove_file_frame fs entry hne.1
              rw [hrf] at this
              exact this
            rcases hrun : runJob hashFn src rep f (.rmList rest) fs1 with ⟨res2, fs2, tr2⟩
            have Hr := ih (.rmList rest) fs1 hrest
            rw [hrun] at Hr
            simp only [hrf, hrun]
            refine confined_combine ?_ Hfr Hr.1 Hr.2
            intro w hw
            rw [Htr w hw]
            exact hentp
        · rw [if_neg hpe]
          by_cases hid : isdir fs entry = true
          · rw [if_pos hid]
            cases hlf : list_files fs entry with
            | exn =>
              simp only [hlf]
              simp
            | ok children =>
              have hch : JobHyp src rep (.rmList children) := by
                have := list_files_ok hlf
                subst this
                exact children_shape_shift hent
              rcases hc1 : runJob hashFn src rep f (.rmList children) fs with ⟨res1, fs1, tr1⟩
              have Hc := ih (.rmList children) fs hch
              rw [hc1] at Hc
              cases res1 with
              | exn =>
                simp only [hlf, hc1]
                exact Hc
              | ok rs =>
                rcases hrun : runJob hashFn src rep f (.rmList rest) fs1 with ⟨res2, fs2, tr2⟩
                have Hr := ih (.rmList rest) fs1 hrest
                rw [hrun] at Hr
                simp only [hlf, hc1, hrun]
                exact confined_combine Hc.1 Hc.2 Hr.1 Hr.2
          · rw [if_neg hid]
            exact ih (.rmList rest) fs hrest

theorem remove_directory_none (fs : FileSys) (b q : Path)
    (h : lookupFS fs.entries q = none) :
    lookupFS (remove_directory fs b).2.1.entries q = none := by
  unfold remove_directory
  cases hsr : shutil_rmtree fs b with
  | ok fs1 =>
    unfold shutil_rmtree at hsr
    split at hsr <;> cases hsr
    exact lookupFS_filter_none _ _ _ h
  | exn => exact h

theorem remove_file_none (fs : FileSys) (b q : Path)
    (h : lookupFS fs.entries q = none) :
    lookupFS (remove_file fs b).2.1.entries q = none := by
  unfold remove_file
  cases hsr : os_remove fs b with
  | ok fs1 =>
    unfold os_remove at hsr
    split at hsr <;> cases hsr
    exact lookupFS_filter_none _ _ _ h
  | exn => exact h

theorem runJob_rm_none (hashFn : List Nat → List Nat) (src rep : Path) :
    ∀ (f : Nat) (cs : List Path) (fs : FileSys) (q : Path),
      lookupFS fs.entries q = none →
      lookupFS (runJob hashFn src rep f (.rmList cs) fs).2.1.entries q = none := by
  intro f
  induction f with
  | zero =>
    intro cs fs q h
    simpa [runJob] using h
  | succ f ih =>
    intro cs fs q h
    cases cs with
    | nil => simpa [runJob] using h
    | cons entry rest =>
      simp only [runJob]
      by_cases hpe : pexists fs (strReplace rep src entry) = false
      · rw [if_pos hpe]
        by_cases hid : isdir fs entry = true
        · rw [if_pos hid]
          rcases hrd : remove_directory fs entry with ⟨r, fs1, tr1⟩
          have h1 : lookupFS fs1.entries q = none := by
            have := remove_directory_none fs entry q h
            rw [hrd] at this
            exact this
          rcases hrun : runJob hashFn src rep f (.rmList rest) fs1 with ⟨res2, fs2, tr2⟩
          have := ih rest fs1 q h1
          rw [hrun] at this
          simp only [hrd, hrun]
          exact this
        · rw [if_neg hid]
          rcases hrf : remove_file fs entry with ⟨r, fs1, tr1⟩
          have h1 : lookupFS fs1.entries q = none := by
            have := remove_file_none fs entry q h
            rw [hrf] at this
            exact this
          rcases hrun : runJob hashFn src rep f (.rmList rest) fs1 with ⟨res2, fs2, tr2⟩
          have := ih rest fs1 q h1
          rw [hrun] at this
          simp only [hrf, hrun]
          exact this
      · rw [if_neg hpe]
        by_cases hid : isdir fs entry = true
        · rw [if_pos hid]
          cases hlf : list_files fs entry with
          | exn =>
            simp only [hlf]
            exact h
          | ok children =>
            rcases hc1 : runJob hashFn src rep f (.rmList children) fs with ⟨res1, fs1, tr1⟩
            have h1 := ih children fs q h
            rw [hc1] at h1
            cases res1 with
            | exn =>
              simp only [hlf, hc1]
              exact h1
            | ok rs =>
              rcases hrun : runJob hashFn src rep f (.rmList rest) fs1 with ⟨res2, fs2, tr2⟩
              have h2 := ih rest fs1 q h1
              rw [hrun] at h2
              simp only [hlf, hc1, hrun]
              exact h2
        · rw [if_neg hid]
          have := ih rest fs q h
          exact this

theorem rmList_deletes (hashFn : List Nat → List Nat) (src rep : Path) :
    ∀ (cs : List Path) (g : Nat) (fs : FileSys),
      cs.length + 1 ≤ g →
      fs.statFail = [] →
      (∀ ch ∈ cs, lookupFS fs.entries (strReplace rep src ch) = none) →
      (∀ ch ∈ cs, (lookupFS fs.entries ch).isSome = true) →
      cs.Pairwise (fun a b => a ≠ b ∧ isUnder a b = false ∧ isUnder b a = false) →
      (∃ rs, (runJob hashFn src rep g (.rmList cs) fs).1 = .ok rs) ∧
      (∀ ch ∈ cs,
        lookupFS (runJob hashFn src rep g (.rmList cs) fs).2.1.entries ch = none ∧
        (isdir fs ch = true → ∀ q, isUnder ch q = true →
          lookupFS (runJob hashFn src rep g (.rmList cs) fs).2.1.entries q = none)) ∧
      (∀ p, (∀ ch ∈ cs, p ≠ ch ∧ isUnder ch p = false) →
        lookupFS (runJob hashFn src rep g (.rmList cs) fs).2.1.entries p =
          lookupFS fs.entries p) ∧
      (runJob hashFn src rep g (.rmList cs) fs).2.1.statFail = [] ∧
      (runJob hashFn src rep g (.rmList cs) fs).2.1.readFail = fs.readFail := by
  intro cs
  induction cs with
  | nil =>
    intro g fs hg hsf hnone hsome hpw
    obtain ⟨g1, rfl⟩ : ∃ g1, g = g1 + 1 := ⟨g - 1, by omega⟩
    simp [runJob, hsf]
  | cons ch rest ihc =>
    intro g fs hg hsf hnone hsome hpw
    obtain ⟨g1, rfl⟩ : ∃ g1, g = g1 + 1 := ⟨g - 1, by omega⟩
    obtain ⟨hhead, hpwrest⟩ := List.pairwise_cons.mp hpw
    simp only [runJob]
    have hex : pexists fs (strReplace rep src ch) = false := by
      unfold pexists
      rw [hsf]
      simp [hnone ch (List.mem_cons_self _ _)]
    rw [if_pos hex]
    by_cases hd : isdir fs ch = true
    · rw [if_pos hd]
      obtain ⟨md, hmd⟩ := isdir_true_lookup hd
      have hrd : remove_directory fs ch =
          (1, { fs with entries := rmtreeEntries fs.entries ch }, [.rmtreeOp ch]) := by
        unfold remove_directory shutil_rmtree
        rw [hmd]
      rw [hrd]
      have hfr1 : ∀ e ∈ rest,
          lookupFS (rmtreeEntries fs.entries ch) e = lookupFS fs.entries e := by
        intro e he
        exact lookupFS_rmtree _ _ _ (Ne.symm (hhead e he).1) (hhead e he).2.1
      have IH := ihc g1 { fs with entries := rmtreeEntries fs.entries ch }
        (by simp at hg ⊢; omega) hsf
        (fun e he => lookupFS_filter_none _ _ _ (hnone e (List.mem_cons_of_mem _ he)))
        (fun e he => by
          show (lookupFS (rmtreeEntries fs.entries ch) e).isSome = true
          rw [hfr1 e he]
          exact hsome e (List.mem_cons_of_mem _ he))
        hpwrest
      rcases hrun : runJob hashFn src rep g1
          (.rmList rest) { fs with entries := rmtreeEntries fs.entries ch }
        with ⟨res2, fs2, tr2⟩
      rw [hrun] at IH
      obtain ⟨⟨rs, hrs⟩, HB, HC, HD1, HD2⟩ := IH
      simp only at hrs HB HC HD1 HD2
      subst hrs
      simp only [hrun]
      refine ⟨⟨1 :: rs, rfl⟩, ?_, ?_, HD1, HD2⟩
      · intro e he
        rcases List.mem_cons.mp he with he1 | he1
        · subst he1
          constructor
          · rw [HC e (fun e2 he2 => ⟨(hhead e2 he2).1, (hhead e2 he2).2.2⟩)]
            exact lookupFS_rmtree_gone _ _ _ (Or.inl rfl)
          · intro _ q hq
            have hqprop : ∀ e2 ∈ rest, q ≠ e2 ∧ isUnder e2 q = false := by
              intro e2 he2
              constructor
              · intro heq
                subst heq
                exact absurd hq (by rw [(hhead q he2).2.1]; simp)
              · by_contra hb
                simp only [Bool.not_eq_false] at hb
                rcases under_compat hq hb with hcc | hcc | hcc
                · exact (hhead e2 he2).1 hcc
                · rw [(hhead e2 he2).2.1] at hcc
                  cases hcc
                · rw [(hhead e2 he2).2.2] at hcc
                  cases hcc
            rw [HC q hqprop]
            exact lookupFS_rmtree_gone _ _ _ (Or.inr hq)
        · have hlk : lookupFS fs2.entries e = none := (HB e he1).1
          refine ⟨hlk, ?_⟩
          intro hde q hq
          refine (HB e he1).2 ?_ q hq
          have hde2 : isdir { fs with entries := rmtreeEntries fs.entries ch } e
              = isdir fs e := by
            simp only [isdir]
            rw [hfr1 e he1]
          rw [hde2]
          exact hde
      · intro p hp
        rw [HC p (fun e2 he2 => hp e2 (List.mem_cons_of_mem _ he2))]
        exact lookupFS_rmtree _ _ _ (hp ch (List.mem_cons_self _ _)).1
          (hp ch (List.mem_cons_self _ _)).2
    · rw [if_neg hd]
      have hd2 : isdir fs ch = false := by simpa using hd
      have hns : ch ∉ fs.statFail := by
        rw [hsf]
        simp
      obtain ⟨c, m, hcm⟩ := isdir_false_file hd2 (hsome ch (List.mem_cons_self _ _)) hns
      have hrf : remove_file fs ch =
          (1, { fs with entries := removeEntry fs.entries ch }, [.removeOp ch]) := by
        unfold remove_file os_remove
        rw [hcm]
      rw [hrf]
      have hfr1 : ∀ e ∈ rest,
          lookupFS (removeEntry fs.entries ch) e = lookupFS fs.entries e := by
        intro e he
        exact lookupFS_removeEntry _ _ _ (Ne.symm (hhead e he).1)
      have IH := ihc g1 { fs with entries := removeEntry fs.entries ch }
        (by simp at hg ⊢; omega) hsf
        (fun e he => lookupFS_filter_none _ _ _ (hnone e (List.mem_cons_of_mem _ he)))
        (fun e he => by
          show (lookupFS (removeEntry fs.entries ch) e).isSome = true
          rw [hfr1 e he]
          exact hsome e (List.mem_cons_of_mem _ he))
        hpwrest
      rcases hrun : runJob hashFn src rep g1
          (.rmList rest) { fs with entries := removeEntry fs.entries ch }
        with ⟨res2, fs2, tr2⟩
      rw [hrun] at IH
      obtain ⟨⟨rs, hrs⟩, HB, HC, HD1, HD2⟩ := IH
      simp only at hrs HB HC HD1 HD2
      subst hrs
      simp only [hrun]
      refine ⟨⟨1 :: rs, rfl⟩, ?_, ?_, HD1, HD2⟩
      · intro e he
        rcases List.mem_cons.mp he with he1 | he1
        · subst he1
          constructor
          · rw [HC e (fun e2 he2 => ⟨(hhead e2 he2).1, (hhead e2 he2).2.2⟩)]
            exact lookupFS_removeEntry_self _ _
          · intro hde
            rw [hd2] at hde
            cases hde
        · have hlk : lookupFS fs2.entries e = none := (HB e he1).1
          refine ⟨hlk, ?_⟩
          intro hde q hq
          refine (HB e he1).2 ?_ q hq
          have hde2 : isdir { fs with entries := removeEntry fs.entries ch } e
              = isdir fs e := by
            simp only [isdir]
            rw [hfr1 e he1]
          rw [hde2]
          exact hde
      · intro p hp
        rw [HC p (fun e2 he2 => hp e2 (List.mem_cons_of_mem _ he2))]
        exact lookupFS_removeEntry _ _ _ (hp ch (List.mem_cons_self _ _)).1

/-! ### Claim theorems -/

/-- Claim C1 (code evaluation at the failing input): with source root /s
holding a single file named s and an empty replica root /r, one cycle
completes without error but creates the replica entry /r/r instead of /r/s,
because str.replace substitutes every occurrence of the source root in the
path, not just the leading prefix.  The mirror invariant demands that the
replica's set of relative paths equal the source's, which fails here. -/
theorem mirror_invariant_fails_on_replace :
    (synchronize_folders (fun c => c) pS pR 6 fsC1).1 = .ok .success ∧
    lookupFS fsC1.entries pSS = some (.file [104, 105] 420) ∧
    lookupFS (synchronize_folders (fun c => c) pS pR 6 fsC1).2.1.entries pRS = none ∧
    lookupFS (synchronize_folders (fun c => c) pS pR 6 fsC1).2.1.entries pRR
      = some (.file [104, 105] 420) := by decide

/-- Claim C2 (code evaluation at the failing input): when the hash computation
fails for both files (both reads raise) while sizes and permission bits are
equal, file_hash yields no value for either side, the two absent hashes
compare equal, and compare_files reports the files as equal instead of the
required not-equal. -/
theorem hash_failure_both_sides_reports_equal :
    file_hash (fun c => c) fsC2 pA = none ∧
    file_hash (fun c => c) fsC2 pB = none ∧
    compare_files (fun c => c) fsC2 pA pB = .ok true := by decide

/-- Claim C3 (counterexample): a metadata-read failure inside compare_files
during the top-level mirror walk is not caught: the walk raises out of
update_content, the failing entry yields no ERROR outcome, and the sibling
entry /s/b is never processed (the filesystem is returned unchanged, with no
operation attempted). -/
theorem compare_failure_aborts_walk :
    update_content (fun c => c) pS pR 6 fsC3 [pSA, pSB] = (.exn, fsC3, []) := by decide

/-- Claim C3 (amended): a filesystem failure raised inside one of the guarded
per-entry mutation helpers is caught by that helper's own try/except,
converted to the ERROR outcome -1 for that entry, and the walk continues with
the remaining sibling entries exactly as it would have processed them on its
own: shown for file creation (the copy raising), directory creation (the
mkdir raising), file update (raising at the removal step, and raising at the
copy step after the removal succeeded, whose effect is kept), and prune-side
file removal (the unlink raising).  The claim's extension to content
comparison fails: the size/permission metadata reads of compare_files are
raised outside every boundary and abort the remaining siblings (see the
counterexample). -/
theorem helper_failure_continues_walk (hashFn : List Nat → List Nat)
    (src rep : Path) (f : Nat) (fs : FileSys) (e : Path) (rest : List Path) :
    (pexists fs (strReplace src rep e) = false → isdir fs e = false →
      shutil_copy fs e (strReplace src rep e) = .exn →
      runJob hashFn src rep (f + 1) (.upList (e :: rest)) fs =
        ((runJob hashFn src rep f (.upList rest) fs).1.mapv (fun l => -1 :: l),
         (runJob hashFn src rep f (.upList rest) fs).2.1,
         .copyOp (strReplace src rep e) ::
           (runJob hashFn src rep f (.upList rest) fs).2.2)) ∧
    (pexists fs (strReplace src rep e) = false → isdir fs e = true →
      os_mkdir fs (strReplace src rep e) = .exn →
      runJob hashFn src rep (f + 2) (.upList (e :: rest)) fs =
        ((runJob hashFn src rep (f + 1) (.upList rest) fs).1.mapv (fun l => -1 :: l),
         (runJob hashFn src rep (f + 1) (.upList rest) fs).2.1,
         .mkdirOp (strReplace src rep e) ::
           (runJob hashFn src rep (f + 1) (.upList rest) fs).2.2)) ∧
    (pexists fs (strReplace src rep e) = true → isdir fs e = false →
      compare_files hashFn fs e (strReplace src rep e) = .ok false →
      os_remove fs (strReplace src rep e) = .exn →
      runJob hashFn src rep (f + 1) (.upList (e :: rest)) fs =
        ((runJob hashFn src rep f (.upList rest) fs).1.mapv (fun l => -1 :: l),
         (runJob hashFn src rep f (.upList rest) fs).2.1,
         .removeOp (strReplace src rep e) ::
           (runJob hashFn src rep f (.upList rest) fs).2.2)) ∧
    (∀ fs1, pexists fs (strReplace src rep e) = true → isdir fs e = false →
      compare_files hashFn fs e (strReplace src rep e) = .ok false →
      os_remove fs (strReplace src rep e) = .ok fs1 →
      shutil_copy fs1 e (strReplace src rep e) = .exn →
      runJob hashFn src rep (f + 1) (.upList (e :: rest)) fs =
        ((runJob hashFn src rep f (.upList rest) fs1).1.mapv (fun l => -1 :: l),
         (runJob hashFn src rep f (.upList rest) fs1).2.1,
         .removeOp (strReplace src rep e) :: .copyOp (strReplace src rep e) ::
           (runJob hashFn src rep f (.upList rest) fs1).2.2)) ∧
    (pexists fs (strReplace rep src e) = false → isdir fs e = false →
      os_remove fs e = .exn →
      runJob hashFn src rep (f + 1) (.rmList (e :: rest)) fs =
        ((runJob hashFn src rep f (.rmList rest) fs).1.mapv (fun l => -1 :: l),
         (runJob hashFn src rep f (.rmList rest) fs).2.1,
         .removeOp e :: (runJob hashFn src rep f (.rmList rest) fs).2.2)) := by
  refine ⟨?_, ?_, ?_, ?_, ?_⟩
  · intro hpe hid hcp
    simp only [runJob]
    rw [if_pos hpe]
    rw [if_neg (by simp [hid])]
    have hcf : create_file fs e (strReplace src rep e)
        = (-1, fs, [.copyOp (strReplace src rep e)]) := by
      unfold create_file
      rw [hcp]
    rw [hcf]
    simp
  · intro hpe hid hmkd
    simp only [runJob]
    rw [if_pos hpe]
    rw [if_pos hid]
    rw [hmkd]
    simp
  · intro hpe hid hcmp hrm
    simp only [runJob]
    rw [if_neg (by simp [hpe])]
    rw [if_pos hid]
    simp only [hcmp]
    rw [if_pos trivial]
    have huf : update_file fs e (strReplace src rep e) =
        (-1, fs, [.removeOp (strReplace src rep e)]) := by
      unfold update_file
      rw [hrm]
    rw [huf]
    simp
  · intro fs1 hpe hid hcmp hrm hcp
    simp only [runJob]
    rw [if_neg (by simp [hpe])]
    rw [if_pos hid]
    simp only [hcmp]
    rw [if_pos trivial]
    have huf : update_file fs e (strReplace src rep e) =
        (-1, fs1,
         [.removeOp (strReplace src rep e), .copyOp (strReplace src rep e)]) := by
      unfold update_file
      rw [hrm]
      dsimp only
      rw [hcp]
    rw [huf]
    simp
  · intro hpe hid hrm
    simp only [runJob]
    rw [if_pos hpe]
    rw [if_neg (by simp [hid])]
    have hrf : remove_file fs e = (-1, fs, [.removeOp e]) := by
      unfold remove_file
      rw [hrm]
    rw [hrf]
    simp

/-- Claim C3 (witness for the amended theorem): one concrete instance per
guarded failure mode - a creating copy that raises, a creating mkdir with no
parent, a file update whose unlink hits a directory, a file update whose copy
raises after the removal, and a prune-side unlink hitting a directory - each
contributing -1 while the siblings are processed unchanged. -/
theorem helper_failure_continues_walk_witness :
    (runJob (fun c => c) pS pR 6 (.upList [pSA]) fsW1 =
      ((runJob (fun c => c) pS pR 5 (.upList []) fsW1).1.mapv (fun l => -1 :: l),
       (runJob (fun c => c) pS pR 5 (.upList []) fsW1).2.1,
       .copyOp (strReplace pS pR pSA) ::
         (runJob (fun c => c) pS pR 5 (.upList []) fsW1).2.2)) ∧
    (runJob (fun c => c) pS pR 6 (.upList [pSD]) fsW2 =
      ((runJob (fun c => c) pS pR 5 (.upList []) fsW2).1.mapv (fun l => -1 :: l),
       (runJob (fun c => c) pS pR 5 (.upList []) fsW2).2.1,
       .mkdirOp (strReplace pS pR pSD) ::
         (runJob (fun c => c) pS pR 5 (.upList []) fsW2).2.2)) ∧
    (runJob (fun c => c) pS pR 6 (.upList [pSA, pSB]) fsC3w =
      ((runJob (fun c => c) pS pR 5 (.upList [pSB]) fsC3w).1.mapv (fun l => -1 :: l),
       (runJob (fun c => c) pS pR 5 (.upList [pSB]) fsC3w).2.1,
       .removeOp (strReplace pS pR pSA) ::
         (runJob (fun c => c) pS pR 5 (.upList [pSB]) fsC3w).2.2)) ∧
    (runJob (fun c => c) pS pR 6 (.upList [pSA]) fsW5 =
      ((runJob (fun c => c) pS pR 5 (.upList []) fsW5b).1.mapv (fun l => -1 :: l),
       (runJob (fun c => c) pS pR 5 (.upList []) fsW5b).2.1,
       .removeOp (strReplace pS pR pSA) :: .copyOp (strReplace pS pR pSA) ::
         (runJob (fun c => c) pS pR 5 (.upList []) fsW5b).2.2)) ∧
    (runJob (fun c => c) pS pR 6 (.rmList [pRA]) fsW6 =
      ((runJob (fun c => c) pS pR 5 (.rmList []) fsW6).1.mapv (fun l => -1 :: l),
       (runJob (fun c => c) pS pR 5 (.rmList []) fsW6).2.1,
       .removeOp pRA :: (runJob (fun c => c) pS pR 5 (.rmList []) fsW6).2.2)) :=
  ⟨(helper_failure_continues_walk (fun c => c) pS pR 5 fsW1 pSA []).1
     (by decide) (by decide) (by decide),
   (helper_failure_continues_walk (fun c => c) pS pR 4 fsW2 pSD []).2.1
     (by decide) (by decide) (by decide),
   (helper_failure_continues_walk (fun c => c) pS pR 5 fsC3w pSA [pSB]).2.2.1
     (by decide) (by decide) (by decide) (by decide),
   (helper_failure_continues_walk (fun c => c) pS pR 5 fsW5 pSA []).2.2.2.1 fsW5b
     (by decide) (by decide) (by decide) (by decide) (by decide),
   (helper_failure_continues_walk (fun c => c) pS pR 5 fsW6 pRA []).2.2.2.2
     (by decide) (by decide) (by decide)⟩

/-- Claim C4: the result aggregator returns ERROR (-1) when any element is
ERROR, else CHANGED (1) when any element is CHANGED, else UNCHANGED (0), in
particular UNCHANGED on the empty list, and the result is invariant under
permutation of the list. -/
theorem calculate_operation_result_spec (l : List Int)
    (h : ∀ x ∈ l, x = -1 ∨ x = 1 ∨ x = 0) :
    (calculate_operation_result l =
      if (-1 : Int) ∈ l then -1 else if (1 : Int) ∈ l then 1 else 0) ∧
    calculate_operation_result ([] : List Int) = 0 ∧
    (∀ l2 : List Int, l.Perm l2 →
      calculate_operation_result l = calculate_operation_result l2) := by
  refine ⟨?_, by simp [calculate_operation_result], ?_⟩
  · unfold calculate_operation_result
    by_cases h1 : (-1 : Int) ∈ l <;> by_cases h2 : (1 : Int) ∈ l <;> simp [h1, h2]
  · intro l2 hp
    unfold calculate_operation_result
    simp [hp.mem_iff]

/-- Claim C4 (witness). -/
theorem calculate_operation_result_spec_witness :
    (calculate_operation_result [0, 1] =
      if (-1 : Int) ∈ ([0, 1] : List Int) then -1
      else if (1 : Int) ∈ ([0, 1] : List Int) then 1 else 0) ∧
    calculate_operation_result ([] : List Int) = 0 ∧
    (∀ l2 : List Int, ([0, 1] : List Int).Perm l2 →
      calculate_operation_result [0, 1] = calculate_operation_result l2) :=
  calculate_operation_result_spec [0, 1] (by decide)

/-- Claim C5: for two regular files whose metadata and content reads all
succeed, compare_files returns true exactly when the byte sizes, the content
hashes, and the permission bits all agree, and a size mismatch already
decides the comparison as false whatever the read-failure oracle says about
the contents (the hashes are not consulted). -/
theorem compare_files_spec (hashFn : List Nat → List Nat) (fs : FileSys)
    (f1 f2 : Path) (c1 c2 : List Nat) (m1 m2 : Nat)
    (h1 : lookupFS fs.entries f1 = some (.file c1 m1))
    (h2 : lookupFS fs.entries f2 = some (.file c2 m2))
    (hs1 : f1 ∉ fs.statFail) (hs2 : f2 ∉ fs.statFail)
    (hr1 : f1 ∉ fs.readFail) (hr2 : f2 ∉ fs.readFail) :
    compare_files hashFn fs f1 f2 =
      .ok (decide (c1.length = c2.length) && decide (hashFn c1 = hashFn c2)
        && decide (m1 = m2)) ∧
    (c1.length ≠ c2.length → ∀ rf : List Path,
      compare_files hashFn ⟨fs.entries, fs.statFail, rf⟩ f1 f2 = .ok false) := by
  constructor
  · unfold compare_files getsize statMode file_hash readAll
    rw [if_neg hs1, if_neg hs2, if_neg hr1, if_neg hr2, h1, h2]
    dsimp only
    by_cases hsz : c1.length = c2.length
    · rw [if_neg (by simp [hsz])]
      by_cases hh : hashFn c1 = hashFn c2
      · rw [if_neg (by simp [hh])]
        by_cases hm : m1 = m2 <;> simp [hsz, hh, hm, hs1, hs2]
      · rw [if_pos (by simp [hh])]
        simp [hsz, hh]
    · rw [if_pos hsz]
      simp [hsz]
  · intro hsz rf
    unfold compare_files getsize
    dsimp only
    rw [if_neg hs1, if_neg hs2, h1, h2]
    dsimp only
    rw [if_pos hsz]

/-- Claim C5 (witness): equal contents, different permission bits. -/
theorem compare_files_spec_witness :
    (compare_files (fun c => c) fsC5w pA pB =
      .ok (decide (([65, 66] : List Nat).length = ([65, 66] : List Nat).length)
        && decide ((fun c : List Nat => c) [65, 66] = (fun c : List Nat => c) [65, 66])
        && decide (420 = 384)) ∧
    (([65, 66] : List Nat).length ≠ ([65, 66] : List Nat).length → ∀ rf : List Path,
      compare_files (fun c => c) ⟨fsC5w.entries, fsC5w.statFail, rf⟩ pA pB = .ok false)) :=
  compare_files_spec (fun c => c) fsC5w pA pB [65, 66] [65, 66] 420 384
    (by decide) (by decide) (by decide) (by decide) (by decide) (by decide)

/-- Claim C6 (code evaluation at the failing input): with source root /s
holding files named r and s with different one-byte contents and an empty
replica root /r, the first cycle completes successfully with no error; yet
the immediately following second cycle, with the source untouched, is not
reported as UNCHANGED and performs filesystem mutations (both source files
map to the single replica path /r/r through str.replace, so each cycle
rewrites it). -/
theorem second_cycle_not_unchanged :
    (synchronize_folders (fun c => c) pS pR 8 fsC6).1 = .ok .success ∧
    lookupFS fsC6b.entries pSR = some (.file [65] 420) ∧
    lookupFS fsC6b.entries pSS = some (.file [66] 420) ∧
    (synchronize_folders (fun c => c) pS pR 8 fsC6b).1 ≠ .ok .noChanges ∧
    (synchronize_folders (fun c => c) pS pR 8 fsC6b).2.2 ≠ [] := by decide

/-- Claim C7 (counterexample): when the replica root is missing, the root
listing raises, the exception escapes synchronize_folders and the start loop,
and the process terminates having completed no cycle: no next scheduled cycle
runs, contradicting the claim that the driver proceeds after such a failure. -/
theorem root_listing_failure_kills_process :
    start (fun c => c) pS pR 4 3 fsC7 = .crashed fsC7 0 := by decide

/-- Claim C7 (amended): if listing the root replica directory fails at the
start of a cycle, that cycle is abandoned before any entry is processed and
the filesystem is untouched; if the root replica listing succeeds, the prune
pass returns normally, and the root source listing then fails, the cycle is
abandoned at that point with the prune pass's effects kept.  In both cases
the exception propagates out of synchronize_folders and out of the start
loop, which has no handler: the run terminates with zero completed cycles,
and no next scheduled cycle is executed. -/
theorem root_listing_failure_terminates (hashFn : List Nat → List Nat)
    (src rep : Path) (f n : Nat) (fs : FileSys) :
    (list_files fs rep = .exn →
      start hashFn src rep f (n + 1) fs = .crashed fs 0) ∧
    (∀ replica_files res fs1 tr1, list_files fs rep = .ok replica_files →
      remove_content hashFn src rep f fs replica_files = (.ok res, fs1, tr1) →
      list_files fs1 src = .exn →
      start hashFn src rep f (n + 1) fs = .crashed fs1 0) := by
  constructor
  · intro h
    simp only [start, synchronize_folders, h]
  · intro replica_files res fs1 tr1 h1 h2 h3
    simp only [start, synchronize_folders, h1, h2, h3]

/-- Claim C7 (witness for the amended theorem): a missing replica root kills
the run before anything happens; a missing source root kills the run after
the prune pass has already deleted the stale replica file. -/
theorem root_listing_failure_terminates_witness :
    start (fun c => c) pS pR 4 2 fsC7 = .crashed fsC7 0 ∧
    start (fun c => c) pS pR 4 2 fsC7b = .crashed fsC7c 0 :=
  ⟨(root_listing_failure_terminates (fun c => c) pS pR 4 1 fsC7).1 (by decide),
   (root_listing_failure_terminates (fun c => c) pS pR 4 1 fsC7b).2 [pRA] 1 fsC7c
     [.removeOp pRA] (by decide) (by decide) (by decide)⟩

/-- Claim C8 (code evaluation at the failing input): the counterpart path the
engine computes is str.replace of the whole path, which differs from
root-prefix substitution exactly when a non-root component contains the root
path string: for source root /s, replica root /r and entry /s/s, the code
computes /r/r while prefix substitution yields /r/s. -/
theorem counterpart_is_not_prefix_substitution :
    strReplace pS pR pSS = pRR ∧ prefixSubstitute pS pR pSS = pRS ∧ pRR ≠ pRS := by decide

/-- Claim C9: with nonempty, non-nested roots (neither root path a prefix of
the other), every mutation operation issued during one cycle (prune pass then
mirror pass) targets a path extending the replica root, no mutation targets
the source root or any path under it, and the source subtree of the
filesystem is left unchanged by the cycle: paths under the source root are
only read. -/
theorem cycle_mutations_confined (hashFn : List Nat → List Nat) (src rep : Path)
    (f : Nat) (fs : FileSys) (hsrc : src ≠ [])
    (h1 : ¬ src <+: rep) (h2 : ¬ rep <+: src) :
    (∀ w ∈ (synchronize_folders hashFn src rep f fs).2.2, rep <+: wopPath w) ∧
    (∀ w ∈ (synchronize_folders hashFn src rep f fs).2.2, ¬ underOrEq src (wopPath w)) ∧
    (∀ p, underOrEq src p →
      lookupFS (synchronize_folders hashFn src rep f fs).2.1.entries p
        = lookupFS fs.entries p) := by
  have main : (∀ w ∈ (synchronize_folders hashFn src rep f fs).2.2, rep <+: wopPath w) ∧
      (∀ p, underOrEq src p →
        lookupFS (synchronize_folders hashFn src rep f fs).2.1.entries p
          = lookupFS fs.entries p) := by
    unfold synchronize_folders
    cases hlr : list_files fs rep with
    | exn => simp
    | ok replica_files =>
      have hshape : JobHyp src rep (.rmList replica_files) := by
        have := list_files_ok hlr
        subst this
        intro e he
        obtain ⟨t, ht⟩ := childrenOf_shape he
        exact ⟨t, ht⟩
      unfold remove_content
      rcases hrm : runJob hashFn src rep f (.rmList replica_files) fs with ⟨res1, fs1, tr1⟩
      have H1 := runJob_confined hashFn hsrc h1 h2 f (.rmList replica_files) fs hshape
      rw [hrm] at H1
      cases res1 with
      | exn =>
        simp only [hrm, PyRes.mapv]
        exact H1
      | ok rs1 =>
        simp only [hrm, PyRes.mapv]
        cases hls : list_files fs1 src with
        | exn => exact H1
        | ok source_files =>
          have hshape2 : JobHyp src rep (.upList source_files) := by
            have := list_files_ok hls
            subst this
            intro e he
            obtain ⟨t, ht⟩ := childrenOf_shape he
            exact ⟨t, ht⟩
          unfold update_content
          rcases hup : runJob hashFn src rep f (.upList source_files) fs1
            with ⟨res2, fs2, tr2⟩
          have H2 := runJob_confined hashFn hsrc h1 h2 f (.upList source_files) fs1 hshape2
          rw [hup] at H2
          cases res2 with
          | exn =>
            simp only [hup, PyRes.mapv]
            exact confined_combine H1.1 H1.2 H2.1 H2.2
          | ok rs2 =>
            simp only [hup, PyRes.mapv]
            exact confined_combine H1.1 H1.2 H2.1 H2.2
  refine ⟨main.1, ?_, main.2⟩
  intro w hw
  exact repNotUnderSrc h1 h2 (main.1 w hw)

/-- Claim C9 (witness): after one cycle on a concrete mirror pair the source
file /s/s is untouched. -/
theorem cycle_mutations_confined_witness :
    lookupFS (synchronize_folders (fun c => c) pS pR 6 fsC9w).2.1.entries pSS
      = lookupFS fsC9w.entries pSS :=
  (cycle_mutations_confined (fun c => c) pS pR 6 fsC9w (by decide) (by decide)
    (by decide)).2.2 pSS (Or.inr (by decide))

/-- Claim C10: for a relative path that is a regular file in the source tree
and a directory in the replica tree (counterpart computation landing on each
other, non-nested, with well-formed prefix-closed replica contents and no
injected I/O failures), the prune pass handling of that replica directory
recurses into it, finds no source counterpart for any child, deletes every
entry strictly inside the directory while leaving the directory itself in
place, and the mirror pass handling of the source file then reports the
ERROR outcome -1 for that entry: the attempted file update fails at
os.remove on the directory, the filesystem is returned unchanged, and the
replica entry is never converted to a file. -/
theorem kind_mismatch_prune_then_error (hashFn : List Nat → List Nat)
    (src rep : Path) (fs : FileSys) (sPath rPath : Path) (c : List Nat) (mf md : Nat)
    (g u : Nat)
    (hsf : fs.statFail = []) (hrf : fs.readFail = [])
    (hS : lookupFS fs.entries sPath = some (.file c mf))
    (hR : lookupFS fs.entries rPath = some (.dir md))
    (hcp1 : strReplace rep src rPath = sPath)
    (hcp2 : strReplace src rep sPath = rPath)
    (hnest : isUnder rPath sPath = false)
    (hnone : ∀ ch ∈ childrenOf fs.entries rPath,
      lookupFS fs.entries (strReplace rep src ch) = none)
    (hclosed : ∀ q ∈ fs.entries.map Prod.fst, isUnder rPath q = true →
      ∃ ch ∈ childrenOf fs.entries rPath,
        q = ch ∨ (isUnder ch q = true ∧ isdir fs ch = true))
    (hnd : (fs.entries.map Prod.fst).Nodup)
    (hg : (childrenOf fs.entries rPath).length + 2 ≤ g) :
    (∀ q, isUnder rPath q = true →
      lookupFS (remove_content hashFn src rep g fs [rPath]).2.1.entries q = none) ∧
    lookupFS (remove_content hashFn src rep g fs [rPath]).2.1.entries rPath
      = some (.dir md) ∧
    update_content hashFn src rep (u + 2)
        (remove_content hashFn src rep g fs [rPath]).2.1 [sPath]
      = (.ok (-1), (remove_content hashFn src rep g fs [rPath]).2.1,
         [.removeOp rPath]) := by
  obtain ⟨g1, rfl⟩ : ∃ g1, g = g1 + 1 := ⟨g - 1, by omega⟩
  have hpex : pexists fs (strReplace rep src rPath) = true := by
    rw [hcp1]
    unfold pexists
    rw [hsf]
    simp [hS]
  have hdir : isdir fs rPath = true := by
    unfold isdir
    rw [hsf]
    simp [hR]
  have hlf : list_files fs rPath = .ok (childrenOf fs.entries rPath) := by
    unfold list_files
    rw [hR]
  have D := rmList_deletes hashFn src rep (childrenOf fs.entries rPath) g1 fs
    (by omega) hsf hnone
    (fun ch hch => lookupFS_isSome_of_mem_fst (childrenOf_mem_fst hch))
    (childrenOf_pairwise_indep hnd)
  rcases hrun : runJob hashFn src rep g1 (.rmList (childrenOf fs.entries rPath)) fs
    with ⟨res1, fs1, tr1⟩
  rw [hrun] at D
  obtain ⟨⟨rs, hrs⟩, HB, HC, HD1, HD2⟩ := D
  simp only at hrs HB HC HD1 HD2
  subst hrs
  have hg2 : 1 ≤ g1 := by omega
  obtain ⟨g2, rfl⟩ : ∃ g2, g1 = g2 + 1 := ⟨g1 - 1, by omega⟩
  have hempty : runJob hashFn src rep (g2 + 1) (.rmList ([] : List Path)) fs1
      = (.ok [], fs1, []) := by
    simp [runJob]
  have hrc : (remove_content hashFn src rep (g2 + 1 + 1) fs [rPath]).2.1 = fs1 := by
    unfold remove_content
    rw [runJob]
    dsimp only
    rw [if_neg (by simp [hpex])]
    rw [if_pos hdir]
    rw [hlf]
    dsimp only
    rw [hrun]
    dsimp only
    rw [hempty]
  have hchfacts : ∀ ch ∈ childrenOf fs.entries rPath,
      rPath ≠ ch ∧ isUnder ch rPath = false := by
    intro ch hch
    have hu := childrenOf_under hch
    have hlen := isUnder_length hu
    constructor
    · intro he
      rw [he] at hlen
      omega
    · by_contra hb
      simp only [Bool.not_eq_false] at hb
      have := isUnder_length hb
      omega
  have hsfacts : ∀ ch ∈ childrenOf fs.entries rPath,
      sPath ≠ ch ∧ isUnder ch sPath = false := by
    intro ch hch
    have hu := childrenOf_under hch
    constructor
    · intro he
      rw [← he] at hu
      rw [hnest] at hu
      cases hu
    · by_contra hb
      simp only [Bool.not_eq_false] at hb
      have := isUnder_trans hu hb
      rw [hnest] at this
      cases this
  have hR1 : lookupFS fs1.entries rPath = some (.dir md) := by
    rw [HC rPath hchfacts]
    exact hR
  have hS1 : lookupFS fs1.entries sPath = some (.file c mf) := by
    rw [HC sPath hsfacts]
    exact hS
  have hrf1 : fs1.readFail = [] := by
    rw [HD2, hrf]
  refine ⟨?_, ?_, ?_⟩
  · intro q hq
    rw [hrc]
    cases hll : lookupFS fs.entries q with
    | none =>
      have := runJob_rm_none hashFn src rep (g2 + 1) (childrenOf fs.entries rPath) fs q hll
      rw [hrun] at this
      exact this
    | some e =>
      obtain ⟨ch, hch, hcase⟩ :=
        hclosed q (mem_fst_of_lookupFS_isSome (by rw [hll]; rfl)) hq
      rcases hcase with hcase | hcase
      · subst hcase
        exact (HB q hch).1
      · exact (HB ch hch).2 hcase.2 q hcase.1
  · rw [hrc]
    exact hR1
  · rw [hrc]
    have hd1 : isdir fs1 sPath = false := by
      unfold isdir
      rw [HD1]
      simp [hS1]
    have hpx : pexists fs1 rPath = true := by
      unfold pexists
      rw [HD1]
      simp [hR1]
    have hcmp : compare_files hashFn fs1 sPath rPath = .ok false := by
      have hg1 : getsize fs1 sPath = .ok c.length := by
        unfold getsize
        rw [HD1]
        simp [hS1]
      have hgd : getsize fs1 rPath = .ok dirStSize := by
        unfold getsize
        rw [HD1]
        simp [hR1]
      unfold compare_files
      rw [hg1, hgd]
      dsimp only
      by_cases hsz : c.length = dirStSize
      · rw [if_neg (by simp [hsz])]
        have hh1 : file_hash hashFn fs1 sPath = some (hashFn c) := by
          unfold file_hash readAll
          rw [hrf1]
          simp [hS1]
        have hh2 : file_hash hashFn fs1 rPath = none := by
          unfold file_hash readAll
          rw [hrf1]
          simp [hR1]
        rw [if_pos (by simp [hh1, hh2])]
      · rw [if_pos hsz]
    have hrm : os_remove fs1 rPath = .exn := by
      unfold os_remove
      rw [hR1]
    have huf : update_file fs1 sPath rPath = (-1, fs1, [.removeOp rPath]) := by
      unfold update_file
      rw [hrm]
    have hempty2 : runJob hashFn src rep (u + 1) (.upList ([] : List Path)) fs1
        = (.ok [], fs1, []) := by
      simp [runJob]
    unfold update_content
    simp only [runJob]
    rw [hcp2]
    rw [if_neg (by simp [hpx])]
    rw [if_pos hd1]
    simp only [hcmp]
    rw [if_pos trivial]
    rw [huf]
    simp only [hempty2, PyRes.mapv]
    simp [calculate_operation_result]

/-- Claim C10 (witness): on the concrete mismatch pair /s/d (file) versus /r/d
(directory holding a file and a subdirectory with one file), the prune pass
deletes the contents of /r/d but keeps the directory, and the mirror pass on
/s/d returns ERROR leaving the filesystem unchanged. -/
theorem kind_mismatch_prune_then_error_witness :
    lookupFS (remove_content (fun c => c) pS pR 8 fsC10w [pRD]).2.1.entries pRDX = none ∧
    lookupFS (remove_content (fun c => c) pS pR 8 fsC10w [pRD]).2.1.entries pRD
      = some (.dir 493) ∧
    update_content (fun c => c) pS pR 8
        (remove_content (fun c => c) pS pR 8 fsC10w [pRD]).2.1 [pSD]
      = (.ok (-1), (remove_content (fun c => c) pS pR 8 fsC10w [pRD]).2.1,
         [.removeOp pRD]) := by
  have h := kind_mismatch_prune_then_error (fun c => c) pS pR fsC10w pSD pRD [65] 420 493
    8 6 (by decide) (by decide) (by decide) (by decide) (by decide) (by decide)
    (by decide) (by decide) (by decide) (by decide) (by decide)
  exact ⟨h.1 pRDX (by decide), h.2.1, h.2.2⟩
end PySync
